import Mathlib

/-!
Shallow embedding of `zato-server/src/zato/server/connection/web_socket/pubsub.py`:
the WebSocket pub/sub delivery scheduler (`Message` ordering, `DeliveryTask`
delivery passes and sleep policy, and the `PubSubTool` subscription registry).

Python dynamic values are modelled as follows: message fields (ids, timestamps,
priority, payload, the SQL `has_gd` flag) are integers; Python `dict`s keyed by
strings are association lists `List (String × α)` with first-binding-wins lookup;
a raised exception is `Option.none` on the function's result.  The transport and
persistence collaborators (`deliver_pubsub_msg_cb`, `confirm_pubsub_msg_delivered_cb`,
`get_sql_messages_by_sub_key`) are oracle parameters.
-/

/-- One pub/sub message.  Field set is the one copied by `GDMessage.__init__` /
`NonGDMessage.__init__`; all values are modelled as integers. -/
structure Message where
  pub_msg_id : Int
  pub_correl_id : Int
  in_reply_to : Int
  ext_client_id : Int
  group_id : Int
  position_in_group : Int
  pub_time : Int
  ext_pub_time : Int
  data : Int
  mime_type : Int
  priority : Int
  expiration : Int
  expiration_time : Int
  has_gd : Int
deriving DecidableEq

namespace Message

/-- `Message.__cmp__`: Python tuple comparison of
`(9 - priority, ext_pub_time, pub_time)` against the other message's tuple
(`max_pri = 9`). -/
def cmp (a b : Message) : Ordering :=
  match compare (9 - a.priority) (9 - b.priority) with
  | Ordering.eq =>
    match compare a.ext_pub_time b.ext_pub_time with
    | Ordering.eq => compare a.pub_time b.pub_time
    | o => o
  | o => o

end Message

/-- `GDMessage.__init__`: builds a `Message` by copying each attribute of the
SQL row (the row itself is modelled as a `Message`-shaped record). -/
def GDMessage (msg : Message) : Message :=
  { pub_msg_id := msg.pub_msg_id
    pub_correl_id := msg.pub_correl_id
    in_reply_to := msg.in_reply_to
    ext_client_id := msg.ext_client_id
    group_id := msg.group_id
    position_in_group := msg.position_in_group
    pub_time := msg.pub_time
    ext_pub_time := msg.ext_pub_time
    data := msg.data
    mime_type := msg.mime_type
    priority := msg.priority
    expiration := msg.expiration
    expiration_time := msg.expiration_time
    has_gd := msg.has_gd }

/-- Association-list lookup: Python `d[k]` read, `none` models `KeyError`. -/
def getA {κ α : Type} [DecidableEq κ] (k : κ) : List (κ × α) → Option α
  | [] => none
  | p :: rest => if p.1 = k then some p.2 else getA k rest

/-- Association-list assignment: Python `d[k] = v` (replaces the binding if
present, otherwise appends a new one). -/
def setA {κ α : Type} [DecidableEq κ] (k : κ) (v : α) : List (κ × α) → List (κ × α)
  | [] => [(k, v)]
  | p :: rest => if p.1 = k then (k, v) :: rest else p :: setA k v rest

/-- Association-list deletion: Python `del d[k]`, `none` models `KeyError`. -/
def delA {κ α : Type} [DecidableEq κ] (k : κ) : List (κ × α) → Option (List (κ × α))
  | [] => none
  | p :: rest =>
    if p.1 = k then some rest
    else (delA k rest).map (fun r => p :: r)

/-- Python `list.remove(x)`: drops the first occurrence, `none` models
`ValueError` when absent. -/
def listRemove {α : Type} [DecidableEq α] (x : α) : List α → Option (List α)
  | [] => none
  | y :: rest =>
    if y = x then some rest
    else (listRemove x rest).map (fun r => y :: r)

/-- Number of bindings an association list holds for key `k`. -/
def countKey {κ α : Type} [DecidableEq κ] (k : κ) (l : List (κ × α)) : Nat :=
  (l.filter (fun p => p.1 = k)).length

/-- `NonGDMessage.__init__`: builds a `Message` from a Python dict, reading the
fourteen required keys in source order; a missing key is a `KeyError` (`none`). -/
def NonGDMessage (msg : List (String × Int)) : Option Message := do
  let pub_msg_id ← getA "pub_msg_id" msg
  let pub_correl_id ← getA "pub_correl_id" msg
  let in_reply_to ← getA "in_reply_to" msg
  let ext_client_id ← getA "ext_client_id" msg
  let group_id ← getA "group_id" msg
  let position_in_group ← getA "position_in_group" msg
  let pub_time ← getA "pub_time" msg
  let ext_pub_time ← getA "ext_pub_time" msg
  let data ← getA "data" msg
  let mime_type ← getA "mime_type" msg
  let priority ← getA "priority" msg
  let expiration ← getA "expiration" msg
  let expiration_time ← getA "expiration_time" msg
  let has_gd ← getA "has_gd" msg
  some { pub_msg_id := pub_msg_id
         pub_correl_id := pub_correl_id
         in_reply_to := in_reply_to
         ext_client_id := ext_client_id
         group_id := group_id
         position_in_group := position_in_group
         pub_time := pub_time
         ext_pub_time := ext_pub_time
         data := data
         mime_type := mime_type
         priority := priority
         expiration := expiration
         expiration_time := expiration_time
         has_gd := has_gd }

namespace SortedList

/-- `sortedcontainers.SortedList.add` under `Message.__cmp__`: insert keeping
the list sorted ascending, after any element that does not compare greater
(bisect-right position). -/
def add (m : Message) : List Message → List Message
  | [] => [m]
  | x :: xs => if Message.cmp m x = Ordering.lt then m :: x :: xs else x :: add m xs

end SortedList

/-- Outcome of one `DeliveryTask._run_delivery` pass: the messages still
queued afterwards, the returned value (`True` when the iterator ran out,
falsy `None` when the pass aborted on a transport failure), and the messages
for which the deliver callback was invoked, in order. -/
structure PassResult where
  remaining : List Message
  success : Bool
  attempted : List Message
deriving DecidableEq

namespace DeliveryTask

/-- The live iteration of `DeliveryTask._run_delivery`.  The source iterates
`self.delivery_list` — a `sortedcontainers.SortedList`, whose iterator walks
the underlying list by index — while calling `self.delivery_list.remove(msg)`
inside the loop.  Removing the just-yielded element (`remove` deletes it in
place) shifts the rest of the list one slot left under the iterator, so the
message immediately behind every removed message is skipped in that pass.
`kept` holds the messages already behind the iterator that are still in the
list; `pending` the messages at or after the iterator position:
- iterator exhausted: the loop falls through and returns `True`;
- deliver raises: return at once, the whole list (`kept` and `pending`) stays;
- deliver succeeds, confirm raises: the message stays, iterator moves on;
- deliver and confirm succeed: the message is removed and the next pending
  message, having shifted into its slot, is skipped (it stays queued but is
  not attempted this pass). -/
def run_delivery_aux (deliver : Message → Bool) (confirm : Int → Bool) :
    List Message → List Message → PassResult
  | kept, [] => { remaining := kept, success := true, attempted := [] }
  | kept, msg :: rest =>
    if deliver msg then
      if confirm msg.pub_msg_id then
        match rest with
        | [] => { remaining := kept, success := true, attempted := [msg] }
        | skipped :: rest2 =>
          let r := run_delivery_aux deliver confirm (kept ++ [skipped]) rest2
          { remaining := r.remaining, success := r.success, attempted := msg :: r.attempted }
      else
        let r := run_delivery_aux deliver confirm (kept ++ [msg]) rest
        { remaining := r.remaining, success := r.success, attempted := msg :: r.attempted }
    else
      { remaining := kept ++ msg :: rest, success := false, attempted := [msg] }

/-- `DeliveryTask._run_delivery`: run the live iteration over the delivery
list from the start.  The confirm callback is modelled already applied to
this task's `sub_key`. -/
def run_delivery (deliver : Message → Bool) (confirm : Int → Bool)
    (delivery_list : List Message) : PassResult :=
  run_delivery_aux deliver confirm [] delivery_list

/-- One iteration of the `DeliveryTask.run` loop body: empty list sleeps
`no_msg_sleep_time`; otherwise run a delivery pass and sleep
`no_msg_sleep_time` on success or `backoff` (the value `randint(10, 20)`
returned) on failure.  Result: delivery list afterwards and the argument
passed to `sleep`. -/
def run_step (deliver : Message → Bool) (confirm : Int → Bool)
    (no_msg_sleep_time : Nat) (backoff : Nat) (delivery_list : List Message) :
    List Message × Nat :=
  if delivery_list.isEmpty then (delivery_list, no_msg_sleep_time)
  else
    let r := run_delivery deliver confirm delivery_list
    if r.success then (r.remaining, no_msg_sleep_time) else (r.remaining, backoff)

end DeliveryTask

/-- State of one spawned `DeliveryTask` greenlet, as far as the registry can
observe it: its `sub_key` and its `keep_running` flag (`stop()` clears it). -/
structure DTaskState where
  sub_key : String
  keep_running : Bool
deriving DecidableEq

/-- `PubSubTool` state.  The Python dicts keyed by `sub_key` become association
lists; `RLock` objects and spawned `DeliveryTask` objects are represented by
identifiers (`next_lock_id` / `next_task_id` counters), with the mutable
per-task state kept in the `tasks` store so that `stop()` is observable even
for tasks the registry has dropped. -/
structure PubSubTool where
  sub_keys : List String
  batch_size : List (String × Nat)
  last_sql_run : List (String × Option Int)
  sub_key_locks : List (String × Nat)
  delivery_lists : List (String × List Message)
  delivery_tasks : List (String × Nat)
  tasks : List (Nat × DTaskState)
  next_task_id : Nat
  next_lock_id : Nat
deriving DecidableEq

namespace PubSubTool

/-- `PubSubTool.__init__`: every per-key collection starts empty. -/
def init : PubSubTool :=
  { sub_keys := []
    batch_size := []
    last_sql_run := []
    sub_key_locks := []
    delivery_lists := []
    delivery_tasks := []
    tasks := []
    next_task_id := 0
    next_lock_id := 0 }

/-- `PubSubTool.add_sub_key_no_lock`: no-op when the key was already seen;
otherwise record the key, default batch size 1, unset last-SQL-run marker,
a fresh empty sorted delivery list, a freshly spawned `DeliveryTask`
(keep_running set) and the key's new lock. -/
def add_sub_key_no_lock (t : PubSubTool) (sub_key : String) : PubSubTool :=
  if sub_key ∈ t.sub_keys then t
  else
    { sub_keys := t.sub_keys ++ [sub_key]
      batch_size := setA sub_key 1 t.batch_size
      last_sql_run := setA sub_key none t.last_sql_run
      sub_key_locks := setA sub_key t.next_lock_id t.sub_key_locks
      delivery_lists := setA sub_key [] t.delivery_lists
      delivery_tasks := setA sub_key t.next_task_id t.delivery_tasks
      tasks := t.tasks ++ [(t.next_task_id, { sub_key := sub_key, keep_running := true })]
      next_task_id := t.next_task_id + 1
      next_lock_id := t.next_lock_id + 1 }

/-- `PubSubTool.add_sub_key`: takes `self.lock` then delegates; the lock has no
effect in this sequential model. -/
def add_sub_key (t : PubSubTool) (sub_key : String) : PubSubTool :=
  add_sub_key_no_lock t sub_key

/-- `DeliveryTask.stop` applied to task id `tid` inside the task store: clears
that task's `keep_running` flag. -/
def stopTask (tid : Nat) (tasks : List (Nat × DTaskState)) : List (Nat × DTaskState) :=
  tasks.map (fun p => if p.1 = tid then (p.1, { p.2 with keep_running := false }) else p)

/-- `PubSubTool.remove_sub_key`: inside `try`, remove the key from `sub_keys`,
delete its `batch_size`, `last_sql_run`, `sub_key_locks` and `delivery_lists`
entries, stop its delivery task and delete the task entry, in that order; the
first failing step raises, the `except` clause logs and swallows, leaving the
state as modified so far. -/
def remove_sub_key (t : PubSubTool) (sub_key : String) : PubSubTool :=
  match listRemove sub_key t.sub_keys with
  | none => t
  | some sks =>
    let t1 := { t with sub_keys := sks }
    match delA sub_key t1.batch_size with
    | none => t1
    | some bs =>
      let t2 := { t1 with batch_size := bs }
      match delA sub_key t2.last_sql_run with
      | none => t2
      | some ls =>
        let t3 := { t2 with last_sql_run := ls }
        match delA sub_key t3.sub_key_locks with
        | none => t3
        | some lk =>
          let t4 := { t3 with sub_key_locks := lk }
          match delA sub_key t4.delivery_lists with
          | none => t4
          | some dl =>
            let t5 := { t4 with delivery_lists := dl }
            match getA sub_key t5.delivery_tasks with
            | none => t5
            | some tid =>
              let t6 := { t5 with tasks := stopTask tid t5.tasks }
              match delA sub_key t6.delivery_tasks with
              | none => t6
              | some dt => { t6 with delivery_tasks := dt }

/-- `PubSubTool.remove_all_sub_keys`: iterate over a `deepcopy` snapshot of
`sub_keys` (here the immutable list value) removing each key. -/
def remove_all_sub_keys (t : PubSubTool) : PubSubTool :=
  t.sub_keys.foldl remove_sub_key t

/-- Loop body of `PubSubTool._add_non_gd_messages_by_sub_key`: for each dict,
evaluate `self.delivery_lists[sub_key]` (KeyError when absent), wrap the dict
as a `NonGDMessage` (KeyError when malformed) and `add` it to the sorted
list. -/
def add_non_gd_messages_no_lock (t : PubSubTool) (sub_key : String) :
    List (List (String × Int)) → Option PubSubTool
  | [] => some t
  | msg :: rest => do
    let dl ← getA sub_key t.delivery_lists
    let m ← NonGDMessage msg
    add_non_gd_messages_no_lock
      { t with delivery_lists := setA sub_key (SortedList.add m dl) t.delivery_lists }
      sub_key rest

/-- `PubSubTool.add_non_gd_messages_by_sub_key`: looks up the key's lock
(KeyError when the key is unknown), then runs the low-level loop. -/
def add_non_gd_messages_by_sub_key (t : PubSubTool) (sub_key : String)
    (messages : List (List (String × Int))) : Option PubSubTool := do
  let _ ← getA sub_key t.sub_key_locks
  add_non_gd_messages_no_lock t sub_key messages

/-- Loop body of `PubSubTool._fetch_gd_messages_by_sub_key`: each SQL row is
wrapped as a `GDMessage` and added to `self.delivery_lists[sub_key]` (the
lookup raises KeyError when the key is absent; no lookup happens when the
query returned no rows). -/
def add_gd_messages (t : PubSubTool) (sub_key : String) :
    List Message → Option PubSubTool
  | [] => some t
  | msg :: rest => do
    let dl ← getA sub_key t.delivery_lists
    add_gd_messages
      { t with delivery_lists := setA sub_key (SortedList.add (GDMessage msg) dl) t.delivery_lists }
      sub_key rest

/-- `PubSubTool._fetch_gd_messages_by_sub_key`: query the persistence
collaborator with `self.last_sql_run[sub_key]` (KeyError when absent) and add
each returned row to the key's delivery list.  The second component records
the fetch call made (`[sub_key]`), so that theorems can count durable
fetches; `last_sql_run` is not written. -/
def fetch_gd_messages_by_sub_key_no_lock
    (get_sql : String → Option Int → List Message)
    (t : PubSubTool) (sub_key : String) : Option (PubSubTool × List String) := do
  let last ← getA sub_key t.last_sql_run
  let t1 ← add_gd_messages t sub_key (get_sql sub_key last)
  some (t1, [sub_key])

/-- `PubSubTool.fetch_gd_messages_by_sub_key`: looks up the key's lock
(KeyError when the key is unknown), then runs the low-level fetch. -/
def fetch_gd_messages_by_sub_key (get_sql : String → Option Int → List Message)
    (t : PubSubTool) (sub_key : String) : Option (PubSubTool × List String) := do
  let _ ← getA sub_key t.sub_key_locks
  fetch_gd_messages_by_sub_key_no_lock get_sql t sub_key

/-- `PubSubTool.handle_new_messages`: for each key of `sub_key_list`, take the
key's lock (`self.sub_key_locks[sub_key]`, a KeyError for unknown keys that
nothing catches), fetch GD messages when `has_gd`, and append all of
`non_gd_msg_list` when it is non-empty.  The second component accumulates the
durable-fetch calls performed; `none` models an exception escaping to the
caller. -/
def handle_new_messages (get_sql : String → Option Int → List Message)
    (t : PubSubTool) (cid : Int) (has_gd : Bool)
    (sub_key_list : List String) (non_gd_msg_list : List (List (String × Int))) :
    Option (PubSubTool × List String) :=
  match sub_key_list with
  | [] => some (t, [])
  | sub_key :: rest => do
    let _ ← getA sub_key t.sub_key_locks
    let (t1, calls1) ←
      if has_gd then fetch_gd_messages_by_sub_key_no_lock get_sql t sub_key
      else some (t, [])
    let t2 ←
      if non_gd_msg_list.isEmpty then some t1
      else add_non_gd_messages_no_lock t1 sub_key non_gd_msg_list
    let (t3, calls2) ← handle_new_messages get_sql t2 cid has_gd rest non_gd_msg_list
    some (t3, calls1 ++ calls2)

/-- `PubSubTool.confirm_pubsub_msg_delivered`: thin delegation to the
persistence collaborator's confirm operation. -/
def confirm_pubsub_msg_delivered (confirm : String → Int → Bool)
    (sub_key : String) (pub_msg_id : Int) : Bool :=
  confirm sub_key pub_msg_id

end PubSubTool

/-- Insert each message of a list, in order, into a sorted delivery list. -/
def insertAllSorted (dl : List Message) : List Message → List Message
  | [] => dl
  | m :: rest => insertAllSorted (SortedList.add m dl) rest

/-- Build a sorted list by `SortedList.add`-ing the messages one at a time into
an initially empty list, the way `delivery_lists[sub_key]` is populated. -/
def sortedFromList (ms : List Message) : List Message :=
  insertAllSorted [] ms

/-- Wrap every dict of a `non_gd_msg_list` as a `NonGDMessage`, failing on the
first malformed one. -/
def parseNonGDAll : List (List (String × Int)) → Option (List Message)
  | [] => some []
  | d :: rest => do
    let m ← NonGDMessage d
    let ms ← parseNonGDAll rest
    some (m :: ms)

/-- A concrete message whose id, priority and the two publish timestamps are
given and whose remaining fields are zero; used by concrete scenarios. -/
def mkTestMsg (id pri ext pt : Int) : Message :=
  { pub_msg_id := id, pub_correl_id := 0, in_reply_to := 0, ext_client_id := 0,
    group_id := 0, position_in_group := 0, pub_time := pt, ext_pub_time := ext,
    data := 0, mime_type := 0, priority := pri, expiration := 0,
    expiration_time := 0, has_gd := 0 }

/-- A well-formed dict for `NonGDMessage`, carrying the fourteen required keys
with the same field choices as `mkTestMsg`. -/
def mkTestDict (id pri ext pt : Int) : List (String × Int) :=
  [("pub_msg_id", id), ("pub_correl_id", 0), ("in_reply_to", 0),
   ("ext_client_id", 0), ("group_id", 0), ("position_in_group", 0),
   ("pub_time", pt), ("ext_pub_time", ext), ("data", 0), ("mime_type", 0),
   ("priority", pri), ("expiration", 0), ("expiration_time", 0), ("has_gd", 0)]

/-- Well-formedness of a `PubSubTool` state: the per-key dicts bind exactly the
keys of `sub_keys`, `sub_keys` and every dict's key list are duplicate-free,
and every registered delivery-task id points into the task store.  It holds
for the initial state and is preserved by the registration operations. -/
structure WF (t : PubSubTool) : Prop where
  sk_nodup : t.sub_keys.Nodup
  bs_mem : ∀ k, k ∈ t.sub_keys ↔ (getA k t.batch_size).isSome = true
  ls_mem : ∀ k, k ∈ t.sub_keys ↔ (getA k t.last_sql_run).isSome = true
  lk_mem : ∀ k, k ∈ t.sub_keys ↔ (getA k t.sub_key_locks).isSome = true
  dl_mem : ∀ k, k ∈ t.sub_keys ↔ (getA k t.delivery_lists).isSome = true
  dt_mem : ∀ k, k ∈ t.sub_keys ↔ (getA k t.delivery_tasks).isSome = true
  bs_nodup : (t.batch_size.map Prod.fst).Nodup
  ls_nodup : (t.last_sql_run.map Prod.fst).Nodup
  lk_nodup : (t.sub_key_locks.map Prod.fst).Nodup
  dl_nodup : (t.delivery_lists.map Prod.fst).Nodup
  dt_nodup : (t.delivery_tasks.map Prod.fst).Nodup
  dt_task : ∀ k tid, getA k t.delivery_tasks = some tid → (getA tid t.tasks).isSome = true

/-! ## Ordering of messages -/

/-- `Message.cmp a b = lt` exactly when `a` has the strictly higher priority,
or equal priority and strictly earlier external publish time, or equal both
and strictly earlier internal publish time. -/
theorem Message.cmp_eq_lt_iff (a b : Message) :
    Message.cmp a b = Ordering.lt ↔
      (b.priority < a.priority ∨
        (a.priority = b.priority ∧
          (a.ext_pub_time < b.ext_pub_time ∨
            (a.ext_pub_time = b.ext_pub_time ∧ a.pub_time < b.pub_time)))) := by
  unfold Message.cmp
  cases h1 : compare ((9 : Int) - a.priority) ((9 : Int) - b.priority) with
  | lt =>
    have h1' := compare_lt_iff_lt.mp h1
    exact iff_of_true rfl (Or.inl (by omega))
  | gt =>
    have h1' := compare_gt_iff_gt.mp h1
    refine iff_of_false (by simp) ?_
    rintro (h | ⟨h, _⟩) <;> omega
  | eq =>
    have h1' := compare_eq_iff_eq.mp h1
    have hpri : a.priority = b.priority := by omega
    cases h2 : compare a.ext_pub_time b.ext_pub_time with
    | lt =>
      have h2' := compare_lt_iff_lt.mp h2
      exact iff_of_true rfl (Or.inr ⟨hpri, Or.inl h2'⟩)
    | gt =>
      have h2' := compare_gt_iff_gt.mp h2
      refine iff_of_false (by simp) ?_
      rintro (h | ⟨_, h | ⟨h, _⟩⟩) <;> omega
    | eq =>
      have h2' := compare_eq_iff_eq.mp h2
      constructor
      · intro h3
        exact Or.inr ⟨hpri, Or.inr ⟨h2', compare_lt_iff_lt.mp h3⟩⟩
      · rintro (h | ⟨_, h | ⟨_, h⟩⟩)
        · omega
        · omega
        · exact compare_lt_iff_lt.mpr h

/-- `Message.cmp a b = eq` exactly when the two ordering keys agree. -/
theorem Message.cmp_eq_eq_iff (a b : Message) :
    Message.cmp a b = Ordering.eq ↔
      (a.priority = b.priority ∧ a.ext_pub_time = b.ext_pub_time ∧
        a.pub_time = b.pub_time) := by
  unfold Message.cmp
  cases h1 : compare ((9 : Int) - a.priority) ((9 : Int) - b.priority) with
  | lt =>
    have h1' := compare_lt_iff_lt.mp h1
    refine iff_of_false (by simp) ?_
    rintro ⟨h, _⟩; omega
  | gt =>
    have h1' := compare_gt_iff_gt.mp h1
    refine iff_of_false (by simp) ?_
    rintro ⟨h, _⟩; omega
  | eq =>
    have h1' := compare_eq_iff_eq.mp h1
    have hpri : a.priority = b.priority := by omega
    cases h2 : compare a.ext_pub_time b.ext_pub_time with
    | lt =>
      have h2' := compare_lt_iff_lt.mp h2
      refine iff_of_false (by simp) ?_
      rintro ⟨_, h, _⟩; omega
    | gt =>
      have h2' := compare_gt_iff_gt.mp h2
      refine iff_of_false (by simp) ?_
      rintro ⟨_, h, _⟩; omega
    | eq =>
      have h2' := compare_eq_iff_eq.mp h2
      constructor
      · intro h3
        exact ⟨hpri, h2', compare_eq_iff_eq.mp h3⟩
      · rintro ⟨_, _, h⟩
        exact compare_eq_iff_eq.mpr h

/-- C3: comparison of any two messages (durable and ephemeral share this one
`Message.cmp`) is ascending in the key `(9 - priority, ext_pub_time, pub_time)`:
`lt` holds exactly for higher priority, then earlier external publish time,
then earlier internal publish time, and `eq` exactly for equal keys; and the
messages `(priority 9, ext 100)`, `(priority 5, ext 50)`, `(priority 5, ext 10)`
inserted in each of the six possible orders yield the ascending list
`[p9@100, p5@10, p5@50]`. -/
theorem claim_C3 :
    (∀ a b : Message, Message.cmp a b = Ordering.lt ↔
      (b.priority < a.priority ∨
        (a.priority = b.priority ∧
          (a.ext_pub_time < b.ext_pub_time ∨
            (a.ext_pub_time = b.ext_pub_time ∧ a.pub_time < b.pub_time))))) ∧
    (∀ a b : Message, Message.cmp a b = Ordering.eq ↔
      (a.priority = b.priority ∧ a.ext_pub_time = b.ext_pub_time ∧
        a.pub_time = b.pub_time)) ∧
    (∀ order : List Message,
      order.Perm [mkTestMsg 1 9 100 0, mkTestMsg 2 5 50 0, mkTestMsg 3 5 10 0] →
      sortedFromList order =
        [mkTestMsg 1 9 100 0, mkTestMsg 3 5 10 0, mkTestMsg 2 5 50 0]) := by
  refine ⟨Message.cmp_eq_lt_iff, Message.cmp_eq_eq_iff, ?_⟩
  intro order hperm
  have hlen : order.length = 3 := by
    rw [hperm.length_eq]
    rfl
  obtain ⟨a, b, c, rfl⟩ := List.length_eq_three.mp hlen
  have ha : a ∈ [mkTestMsg 1 9 100 0, mkTestMsg 2 5 50 0, mkTestMsg 3 5 10 0] :=
    hperm.mem_iff.mp (by simp)
  have hb : b ∈ [mkTestMsg 1 9 100 0, mkTestMsg 2 5 50 0, mkTestMsg 3 5 10 0] :=
    hperm.mem_iff.mp (by simp)
  have hc : c ∈ [mkTestMsg 1 9 100 0, mkTestMsg 2 5 50 0, mkTestMsg 3 5 10 0] :=
    hperm.mem_iff.mp (by simp)
  have hnd : ([a, b, c] : List Message).Nodup := hperm.nodup_iff.mpr (by decide)
  simp only [List.mem_cons, List.not_mem_nil, or_false] at ha hb hc
  rcases ha with ha | ha | ha <;> rcases hb with hb | hb | hb <;>
    rcases hc with hc | hc | hc <;> subst ha <;> subst hb <;> subst hc <;>
    first
    | (exfalso; revert hnd; decide)
    | decide

/-! ## Delivery passes -/

/-- A pass in which every transport deliver call made succeeds runs the
iterator out and returns `True`, for every confirm behaviour (skips included:
a skipped message simply makes one less deliver call). -/
theorem run_delivery_aux_success (d : Message → Bool) (c : Int → Bool) :
    ∀ (pending kept : List Message), (∀ m ∈ pending, d m = true) →
      (DeliveryTask.run_delivery_aux d c kept pending).success = true
  | [], _, _ => rfl
  | [msg], kept, h => by
    have hd : d msg = true := h msg (by simp)
    cases hc : c msg.pub_msg_id <;>
      simp [DeliveryTask.run_delivery_aux, hd, hc]
  | msg :: skipped :: rest2, kept, h => by
    have hd : d msg = true := h msg (by simp)
    cases hc : c msg.pub_msg_id with
    | true =>
      have ih := run_delivery_aux_success d c rest2 (kept ++ [skipped])
        (fun m hm => h m (by simp [hm]))
      simp [DeliveryTask.run_delivery_aux, hd, hc, ih]
    | false =>
      have ih := run_delivery_aux_success d c (skipped :: rest2) (kept ++ [msg])
        (fun m hm => h m (by simp [hm]))
      simp [DeliveryTask.run_delivery_aux, hd, hc, ih]

/-- A pass whose first message fails transport aborts at once with the whole
list intact. -/
theorem run_delivery_abort (d : Message → Bool) (c : Int → Bool)
    (msg : Message) (post : List Message) (h : d msg = false) :
    DeliveryTask.run_delivery d c (msg :: post) =
      { remaining := msg :: post, success := false, attempted := [msg] } := by
  cases post <;> simp [DeliveryTask.run_delivery, DeliveryTask.run_delivery_aux, h]

/-- C1 (code bug): at the failing input — ascending queue `[A, B]` with
`A = p9` (id 1), `B = p5` (id 2), a transport stub that fails only on `A` in
the first pass and stubs that all succeed in the second — the first pass
aborts exactly as claimed (only `A` attempted, both messages still queued),
but the second pass, as the claim's "later pass in which deliver succeeds",
removes `A` and does NOT proceed to the next message: the in-place removal
shifts the live iterator past `B`, so `B` is never attempted in that pass and
is delivered only by the pass after it. -/
theorem claim_C1 :
    DeliveryTask.run_delivery (fun m => decide (m.pub_msg_id ≠ 1)) (fun _ => true)
        [mkTestMsg 1 9 0 0, mkTestMsg 2 5 0 0] =
      { remaining := [mkTestMsg 1 9 0 0, mkTestMsg 2 5 0 0], success := false,
        attempted := [mkTestMsg 1 9 0 0] } ∧
    DeliveryTask.run_delivery (fun _ => true) (fun _ => true)
        [mkTestMsg 1 9 0 0, mkTestMsg 2 5 0 0] =
      { remaining := [mkTestMsg 2 5 0 0], success := true,
        attempted := [mkTestMsg 1 9 0 0] } ∧
    mkTestMsg 2 5 0 0 ∉
      (DeliveryTask.run_delivery (fun _ => true) (fun _ => true)
        [mkTestMsg 1 9 0 0, mkTestMsg 2 5 0 0]).attempted ∧
    DeliveryTask.run_delivery (fun _ => true) (fun _ => true) [mkTestMsg 2 5 0 0] =
      { remaining := [], success := true, attempted := [mkTestMsg 2 5 0 0] } :=
  ⟨by decide, by decide, by decide, by decide⟩

/-- C2 (code bug): at the failing input — ascending queue `[A, M]` with
`A = p9` (id 1), `M = p5` (id 2) — the first pass delivers both but both
confirms fail, so `M` (deliver succeeded, confirm failed) stays queued as
claimed; but on the following pass, in which deliver and confirm succeed
everywhere, `A` is removed first and the live-iterator shift skips `M`: it is
NOT attempted on the following pass, only on the one after.  `M` is never
silently lost — it stays in the queue until a pass both delivers and
confirms it. -/
theorem claim_C2 :
    DeliveryTask.run_delivery (fun _ => true) (fun _ => false)
        [mkTestMsg 1 9 0 0, mkTestMsg 2 5 0 0] =
      { remaining := [mkTestMsg 1 9 0 0, mkTestMsg 2 5 0 0], success := true,
        attempted := [mkTestMsg 1 9 0 0, mkTestMsg 2 5 0 0] } ∧
    mkTestMsg 2 5 0 0 ∉
      (DeliveryTask.run_delivery (fun _ => true) (fun _ => true)
        [mkTestMsg 1 9 0 0, mkTestMsg 2 5 0 0]).attempted ∧
    mkTestMsg 2 5 0 0 ∈
      (DeliveryTask.run_delivery (fun _ => true) (fun _ => true)
        [mkTestMsg 1 9 0 0, mkTestMsg 2 5 0 0]).remaining ∧
    DeliveryTask.run_delivery (fun _ => true) (fun _ => true) [mkTestMsg 2 5 0 0] =
      { remaining := [], success := true, attempted := [mkTestMsg 2 5 0 0] } :=
  ⟨by decide, by decide, by decide, by decide⟩

/-- C4: one iteration of the task loop sleeps the short idle interval (1 time
unit) when the queue is empty or the pass completed with no failure, and
sleeps the `randint(10, 20)` backoff value, which lies in `[10, 20]`, when the
pass aborted on a failure. -/
theorem claim_C4 (d : Message → Bool) (c : Int → Bool) (q : List Message) (r : Nat)
    (h10 : 10 ≤ r) (h20 : r ≤ 20) :
    (q = [] → DeliveryTask.run_step d c 1 r q = (q, 1)) ∧
    (q ≠ [] → (DeliveryTask.run_delivery d c q).success = true →
      (DeliveryTask.run_step d c 1 r q).2 = 1) ∧
    (q ≠ [] → (DeliveryTask.run_delivery d c q).success = false →
      (DeliveryTask.run_step d c 1 r q).2 = r ∧
      10 ≤ (DeliveryTask.run_step d c 1 r q).2 ∧
      (DeliveryTask.run_step d c 1 r q).2 ≤ 20) := by
  refine ⟨?_, ?_, ?_⟩
  · intro hq; subst hq; rfl
  · intro hq hs
    simp [DeliveryTask.run_step, List.isEmpty_iff, hq, hs]
  · intro hq hs
    refine ⟨?_, ?_, ?_⟩ <;> simp [DeliveryTask.run_step, List.isEmpty_iff, hq, hs] <;> omega

/-- Witness for C4: the empty queue, an all-success pass, and an aborted pass,
with the backoff draw being 15. -/
theorem claim_C4_witness :
    ((10 : Nat) ≤ 15 ∧ (15 : Nat) ≤ 20) ∧
    DeliveryTask.run_step (fun _ => true) (fun _ => true) 1 15 [] = ([], 1) ∧
    (DeliveryTask.run_step (fun _ => true) (fun _ => true) 1 15 [mkTestMsg 1 5 0 0]).2 = 1 ∧
    ((DeliveryTask.run_step (fun _ => false) (fun _ => true) 1 15 [mkTestMsg 1 5 0 0]).2 = 15 ∧
     10 ≤ (DeliveryTask.run_step (fun _ => false) (fun _ => true) 1 15 [mkTestMsg 1 5 0 0]).2 ∧
     (DeliveryTask.run_step (fun _ => false) (fun _ => true) 1 15 [mkTestMsg 1 5 0 0]).2 ≤ 20) :=
  ⟨⟨by decide, by decide⟩,
   (claim_C4 (fun _ => true) (fun _ => true) [] 15 (by decide) (by decide)).1 rfl,
   (claim_C4 (fun _ => true) (fun _ => true) [mkTestMsg 1 5 0 0] 15 (by decide) (by decide)).2.1
     (by decide) (by decide),
   (claim_C4 (fun _ => false) (fun _ => true) [mkTestMsg 1 5 0 0] 15 (by decide) (by decide)).2.2
     (by decide) (by decide)⟩

/-- C10: a pass in which every transport delivery succeeds returns `True`
regardless of how confirmations went, so the loop follows it with the short
1-unit sleep, not the backoff. -/
theorem claim_C10 (d : Message → Bool) (c : Int → Bool) (q : List Message) (r : Nat)
    (h : ∀ m ∈ q, d m = true) :
    (DeliveryTask.run_delivery d c q).success = true ∧
    (q ≠ [] → DeliveryTask.run_step d c 1 r q =
      ((DeliveryTask.run_delivery d c q).remaining, 1)) := by
  have hs : (DeliveryTask.run_delivery d c q).success = true :=
    run_delivery_aux_success d c q [] h
  refine ⟨hs, ?_⟩
  intro hq
  simp [DeliveryTask.run_step, List.isEmpty_iff, hq, hs]

/-- Witness for C3: one concrete insertion order of the three scenario
messages. -/
theorem claim_C3_witness :
    ([mkTestMsg 2 5 50 0, mkTestMsg 1 9 100 0, mkTestMsg 3 5 10 0] : List Message).Perm
      [mkTestMsg 1 9 100 0, mkTestMsg 2 5 50 0, mkTestMsg 3 5 10 0] ∧
    sortedFromList [mkTestMsg 2 5 50 0, mkTestMsg 1 9 100 0, mkTestMsg 3 5 10 0] =
      [mkTestMsg 1 9 100 0, mkTestMsg 3 5 10 0, mkTestMsg 2 5 50 0] :=
  ⟨by decide,
   claim_C3.2.2 [mkTestMsg 2 5 50 0, mkTestMsg 1 9 100 0, mkTestMsg 3 5 10 0] (by decide)⟩

/-! ## Dictionary (association list) lemmas -/

theorem getA_eq_none_iff {κ α : Type} [DecidableEq κ] (k : κ) (l : List (κ × α)) :
    getA k l = none ↔ k ∉ l.map Prod.fst := by
  induction l with
  | nil => simp [getA]
  | cons p rest ih =>
    by_cases h : p.1 = k
    · simp [getA, h]
    · simp [getA, h, ih, Ne.symm h]

theorem getA_setA_self {κ α : Type} [DecidableEq κ] (k : κ) (v : α) (l : List (κ × α)) :
    getA k (setA k v l) = some v := by
  induction l with
  | nil => simp [getA, setA]
  | cons p rest ih =>
    by_cases h : p.1 = k <;> simp [getA, setA, h, ih]

theorem getA_setA_ne {κ α : Type} [DecidableEq κ] {k k' : κ} (v : α) (l : List (κ × α))
    (h : k' ≠ k) : getA k' (setA k v l) = getA k' l := by
  induction l with
  | nil => simp [getA, setA, Ne.symm h]
  | cons p rest ih =>
    by_cases hp : p.1 = k
    · subst hp; simp [getA, setA, Ne.symm h, ih]
    · simp [getA, setA, hp, ih]

theorem setA_of_getA_none {κ α : Type} [DecidableEq κ] {k : κ} (v : α) {l : List (κ × α)}
    (h : getA k l = none) : setA k v l = l ++ [(k, v)] := by
  induction l with
  | nil => rfl
  | cons p rest ih =>
    by_cases hp : p.1 = k
    · simp [getA, hp] at h
    · simp [getA, hp] at h
      simp [setA, hp, ih h]

theorem setA_setA {κ α : Type} [DecidableEq κ] (k : κ) (v w : α) (l : List (κ × α)) :
    setA k v (setA k w l) = setA k v l := by
  induction l with
  | nil => simp [setA]
  | cons p rest ih =>
    by_cases hp : p.1 = k <;> simp [setA, hp, ih]

theorem getA_setA_isSome {κ α : Type} [DecidableEq κ] (k k' : κ) (v : α) (l : List (κ × α)) :
    (getA k' (setA k v l)).isSome = true ↔ (k' = k ∨ (getA k' l).isSome = true) := by
  by_cases h : k' = k
  · subst h; simp [getA_setA_self]
  · simp [getA_setA_ne v l h, h]

theorem countKey_eq_zero_iff {κ α : Type} [DecidableEq κ] (k : κ) (l : List (κ × α)) :
    countKey k l = 0 ↔ k ∉ l.map Prod.fst := by
  induction l with
  | nil => simp [countKey]
  | cons p rest ih =>
    by_cases hp : p.1 = k
    · simp [countKey, List.filter_cons, hp]
    · simp only [countKey, List.filter_cons] at ih ⊢
      simp [hp, ih, Ne.symm hp]

theorem countKey_setA_of_zero {κ α : Type} [DecidableEq κ] {k : κ} (v : α)
    {l : List (κ × α)} (h : countKey k l = 0) : countKey k (setA k v l) = 1 := by
  have hget : getA k l = none :=
    (getA_eq_none_iff k l).mpr ((countKey_eq_zero_iff k l).mp h)
  rw [setA_of_getA_none v hget]
  simp only [countKey] at h ⊢
  rw [List.filter_append, List.length_append, h]
  simp [List.filter_cons]

theorem getA_append_of_some {κ α : Type} [DecidableEq κ] {k : κ} {v : α}
    {l1 : List (κ × α)} (l2 : List (κ × α)) (h : getA k l1 = some v) :
    getA k (l1 ++ l2) = some v := by
  induction l1 with
  | nil => simp [getA] at h
  | cons p rest ih =>
    by_cases hp : p.1 = k
    · simp [getA, hp] at h ⊢
      exact h
    · simp [getA, hp] at h ⊢
      exact ih h

theorem getA_append_of_none {κ α : Type} [DecidableEq κ] {k : κ}
    {l1 : List (κ × α)} (l2 : List (κ × α)) (h : getA k l1 = none) :
    getA k (l1 ++ l2) = getA k l2 := by
  induction l1 with
  | nil => rfl
  | cons p rest ih =>
    by_cases hp : p.1 = k <;> simp [getA, hp] at h ⊢
    exact ih h

theorem delA_isSome_iff {κ α : Type} [DecidableEq κ] (k : κ) (l : List (κ × α)) :
    (delA k l).isSome = true ↔ (getA k l).isSome = true := by
  induction l with
  | nil => simp [delA, getA]
  | cons p rest ih =>
    by_cases hp : p.1 = k <;> simp [delA, getA, hp, ih]

theorem delA_fst_sublist {κ α : Type} [DecidableEq κ] {k : κ} :
    ∀ {l l' : List (κ × α)}, delA k l = some l' →
      List.Sublist (l'.map Prod.fst) (l.map Prod.fst) := by
  intro l
  induction l with
  | nil => intro l' h; simp [delA] at h
  | cons p rest ih =>
    intro l' h
    by_cases hp : p.1 = k
    · simp [delA, hp] at h
      subst h
      exact List.sublist_cons_self p.1 (rest.map Prod.fst)
    · simp [delA, hp] at h
      obtain ⟨r, hr, rfl⟩ := h
      simpa using (ih hr).cons₂ p.1

theorem getA_delA_self {κ α : Type} [DecidableEq κ] {k : κ} :
    ∀ {l l' : List (κ × α)}, (l.map Prod.fst).Nodup → delA k l = some l' →
      getA k l' = none := by
  intro l
  induction l with
  | nil => intro l' _ h; simp [delA] at h
  | cons p rest ih =>
    intro l' hnd h
    by_cases hp : p.1 = k
    · simp [delA, hp] at h
      subst h
      rw [getA_eq_none_iff]
      intro hk
      exact (List.nodup_cons.mp (by simpa using hnd)).1 (hp ▸ hk)
    · simp [delA, hp] at h
      obtain ⟨r, hr, rfl⟩ := h
      simp [getA, hp]
      exact ih (List.nodup_cons.mp (by simpa using hnd)).2 hr

theorem getA_delA_ne {κ α : Type} [DecidableEq κ] {k k' : κ} (hne : k' ≠ k) :
    ∀ {l l' : List (κ × α)}, delA k l = some l' → getA k' l' = getA k' l := by
  intro l
  induction l with
  | nil => intro l' h; simp [delA] at h
  | cons p rest ih =>
    intro l' h
    by_cases hp : p.1 = k
    · simp [delA, hp] at h
      subst h
      have : p.1 ≠ k' := by rw [hp]; exact Ne.symm hne
      simp [getA, this]
    · simp [delA, hp] at h
      obtain ⟨r, hr, rfl⟩ := h
      simp [getA, ih hr]

theorem eq_nil_of_getA_none {κ α : Type} [DecidableEq κ] {l : List (κ × α)}
    (h : ∀ k, getA k l = none) : l = [] := by
  cases l with
  | nil => rfl
  | cons p rest =>
    have hp := h p.1
    simp [getA] at hp

theorem listRemove_eq_none_iff {α : Type} [DecidableEq α] (x : α) (l : List α) :
    listRemove x l = none ↔ x ∉ l := by
  induction l with
  | nil => simp [listRemove]
  | cons y rest ih =>
    by_cases hy : y = x
    · simp [listRemove, hy]
    · simp [listRemove, hy, ih, Ne.symm hy]

theorem listRemove_sublist {α : Type} [DecidableEq α] {x : α} :
    ∀ {l l' : List α}, listRemove x l = some l' → List.Sublist l' l := by
  intro l
  induction l with
  | nil => intro l' h; simp [listRemove] at h
  | cons y rest ih =>
    intro l' h
    by_cases hy : y = x
    · simp [listRemove, hy] at h
      subst h
      exact List.sublist_cons_self y rest
    · simp [listRemove, hy] at h
      obtain ⟨r, hr, rfl⟩ := h
      exact (ih hr).cons₂ y

theorem not_mem_listRemove {α : Type} [DecidableEq α] {x : α} :
    ∀ {l l' : List α}, l.Nodup → listRemove x l = some l' → x ∉ l' := by
  intro l
  induction l with
  | nil => intro l' _ h; simp [listRemove] at h
  | cons y rest ih =>
    intro l' hnd h
    by_cases hy : y = x
    · simp [listRemove, hy] at h
      subst h
      exact fun hx => (List.nodup_cons.mp hnd).1 (hy ▸ hx)
    · simp [listRemove, hy] at h
      obtain ⟨r, hr, rfl⟩ := h
      intro hx
      rcases List.mem_cons.mp hx with heq | hx'
      · exact hy heq.symm
      · exact ih (List.nodup_cons.mp hnd).2 hr hx'

theorem mem_listRemove_of_ne {α : Type} [DecidableEq α] {x y : α} (hne : y ≠ x) :
    ∀ {l l' : List α}, listRemove x l = some l' → (y ∈ l' ↔ y ∈ l) := by
  intro l
  induction l with
  | nil => intro l' h; simp [listRemove] at h
  | cons z rest ih =>
    intro l' h
    by_cases hz : z = x
    · simp [listRemove, hz] at h
      subst h
      subst hz
      simp [Ne.symm]
      intro hyz
      exact absurd hyz hne
    · simp [listRemove, hz] at h
      obtain ⟨r, hr, rfl⟩ := h
      simp [ih hr]

theorem stopTask_map_fst (tid : Nat) (ts : List (Nat × DTaskState)) :
    (PubSubTool.stopTask tid ts).map Prod.fst = ts.map Prod.fst := by
  induction ts with
  | nil => rfl
  | cons p rest ih =>
    by_cases hp : p.1 = tid <;> simp [PubSubTool.stopTask, hp] <;>
      simpa [PubSubTool.stopTask] using ih

theorem getA_stopTask (tid tid' : Nat) (ts : List (Nat × DTaskState)) :
    getA tid' (PubSubTool.stopTask tid ts) =
      (getA tid' ts).map
        (fun dt => if tid' = tid then { dt with keep_running := false } else dt) := by
  induction ts with
  | nil => rfl
  | cons p rest ih =>
    by_cases hp : p.1 = tid
    · by_cases hp' : p.1 = tid'
      · simp [PubSubTool.stopTask, getA, hp, hp', hp' ▸ hp]
      · simp only [PubSubTool.stopTask, List.map_cons, if_pos hp]
        simp [getA, hp']
        simpa [PubSubTool.stopTask] using ih
    · by_cases hp' : p.1 = tid'
      · have htt : ¬(tid' = tid) := by rw [← hp']; exact hp
        simp [PubSubTool.stopTask, getA, hp, hp', htt]
      · simp only [PubSubTool.stopTask, List.map_cons, if_neg hp]
        simp [getA, hp']
        simpa [PubSubTool.stopTask] using ih

/-- Witness for C10: transport succeeds on the singleton queue while confirm
always fails; the pass still reports success and the next sleep is 1. -/
theorem claim_C10_witness :
    (∀ m ∈ [mkTestMsg 1 5 0 0], (fun _ : Message => true) m = true) ∧
    (DeliveryTask.run_delivery (fun _ => true) (fun _ => false)
      [mkTestMsg 1 5 0 0]).success = true ∧
    DeliveryTask.run_step (fun _ => true) (fun _ => false) 1 15 [mkTestMsg 1 5 0 0] =
      ((DeliveryTask.run_delivery (fun _ => true) (fun _ => false)
        [mkTestMsg 1 5 0 0]).remaining, 1) :=
  ⟨by decide,
   (claim_C10 (fun _ => true) (fun _ => false) [mkTestMsg 1 5 0 0] 15 (by decide)).1,
   (claim_C10 (fun _ => true) (fun _ => false) [mkTestMsg 1 5 0 0] 15 (by decide)).2
     (by decide)⟩

/-! ## Registration (C6) -/

/-- Unfolding of a first-time registration. -/
theorem add_sub_key_fresh (t : PubSubTool) (k : String) (hk : k ∉ t.sub_keys) :
    PubSubTool.add_sub_key t k =
      { sub_keys := t.sub_keys ++ [k]
        batch_size := setA k 1 t.batch_size
        last_sql_run := setA k none t.last_sql_run
        sub_key_locks := setA k t.next_lock_id t.sub_key_locks
        delivery_lists := setA k [] t.delivery_lists
        delivery_tasks := setA k t.next_task_id t.delivery_tasks
        tasks := t.tasks ++ [(t.next_task_id, { sub_key := k, keep_running := true })]
        next_task_id := t.next_task_id + 1
        next_lock_id := t.next_lock_id + 1 } := by
  simp [PubSubTool.add_sub_key, PubSubTool.add_sub_key_no_lock, hk]

/-- Registering an already-registered key changes nothing. -/
theorem add_sub_key_mem (t : PubSubTool) (k : String) (hk : k ∈ t.sub_keys) :
    PubSubTool.add_sub_key t k = t := by
  simp [PubSubTool.add_sub_key, PubSubTool.add_sub_key_no_lock, hk]

/-- C6: `add_sub_key` is idempotent: a second call with the same key is a
no-op, after two calls the key has exactly one entry in `sub_keys` and in each
per-key dict, exactly one `DeliveryTask` was created (spawned running, bound
to the key), and the first call sets batch size 1 and an unset
`last_sql_run` marker. -/
theorem claim_C6 (t : PubSubTool) (k : String)
    (hk : k ∉ t.sub_keys)
    (h1 : countKey k t.batch_size = 0) (h2 : countKey k t.last_sql_run = 0)
    (h3 : countKey k t.sub_key_locks = 0) (h4 : countKey k t.delivery_lists = 0)
    (h5 : countKey k t.delivery_tasks = 0) :
    PubSubTool.add_sub_key (PubSubTool.add_sub_key t k) k = PubSubTool.add_sub_key t k ∧
    (PubSubTool.add_sub_key t k).sub_keys.count k = 1 ∧
    countKey k (PubSubTool.add_sub_key t k).batch_size = 1 ∧
    countKey k (PubSubTool.add_sub_key t k).last_sql_run = 1 ∧
    countKey k (PubSubTool.add_sub_key t k).sub_key_locks = 1 ∧
    countKey k (PubSubTool.add_sub_key t k).delivery_lists = 1 ∧
    countKey k (PubSubTool.add_sub_key t k).delivery_tasks = 1 ∧
    (PubSubTool.add_sub_key t k).tasks =
      t.tasks ++ [(t.next_task_id, { sub_key := k, keep_running := true })] ∧
    getA k (PubSubTool.add_sub_key t k).batch_size = some 1 ∧
    getA k (PubSubTool.add_sub_key t k).last_sql_run = some none := by
  have ht1 := add_sub_key_fresh t k hk
  refine ⟨?_, ?_, ?_, ?_, ?_, ?_, ?_, ?_, ?_, ?_⟩
  · apply add_sub_key_mem
    rw [ht1]
    simp
  · rw [ht1]
    simp [List.count_append, List.count_eq_zero.mpr hk]
  · rw [ht1]; exact countKey_setA_of_zero _ h1
  · rw [ht1]; exact countKey_setA_of_zero _ h2
  · rw [ht1]; exact countKey_setA_of_zero _ h3
  · rw [ht1]; exact countKey_setA_of_zero _ h4
  · rw [ht1]; exact countKey_setA_of_zero _ h5
  · rw [ht1]
  · rw [ht1]; exact getA_setA_self k 1 t.batch_size
  · rw [ht1]; exact getA_setA_self k none t.last_sql_run

/-- Witness for C6: registering the key `k1` twice on the empty registry. -/
theorem claim_C6_witness :
    ("k1" ∉ PubSubTool.init.sub_keys ∧
     countKey "k1" PubSubTool.init.batch_size = 0 ∧
     countKey "k1" PubSubTool.init.last_sql_run = 0 ∧
     countKey "k1" PubSubTool.init.sub_key_locks = 0 ∧
     countKey "k1" PubSubTool.init.delivery_lists = 0 ∧
     countKey "k1" PubSubTool.init.delivery_tasks = 0) ∧
    PubSubTool.add_sub_key (PubSubTool.add_sub_key PubSubTool.init "k1") "k1" =
      PubSubTool.add_sub_key PubSubTool.init "k1" ∧
    (PubSubTool.add_sub_key PubSubTool.init "k1").sub_keys.count "k1" = 1 ∧
    countKey "k1" (PubSubTool.add_sub_key PubSubTool.init "k1").delivery_tasks = 1 ∧
    getA "k1" (PubSubTool.add_sub_key PubSubTool.init "k1").batch_size = some 1 ∧
    getA "k1" (PubSubTool.add_sub_key PubSubTool.init "k1").last_sql_run = some none := by
  have h := claim_C6 PubSubTool.init "k1" (by decide) (by decide) (by decide)
    (by decide) (by decide) (by decide)
  exact ⟨⟨by decide, by decide, by decide, by decide, by decide, by decide⟩,
    h.1, h.2.1, h.2.2.2.2.2.2.1, h.2.2.2.2.2.2.2.2.1, h.2.2.2.2.2.2.2.2.2⟩

/-! ## Teardown (C7) -/

/-- On a well-formed state holding `k`, every step of `remove_sub_key`
succeeds and the result deletes the key's binding from each dict, removes it
from `sub_keys`, and stops its task in the task store. -/
theorem remove_sub_key_eq (t : PubSubTool) (k : String) (h : WF t)
    (hk : k ∈ t.sub_keys) :
    ∃ sks bs ls lk dl tid dts,
      listRemove k t.sub_keys = some sks ∧
      delA k t.batch_size = some bs ∧
      delA k t.last_sql_run = some ls ∧
      delA k t.sub_key_locks = some lk ∧
      delA k t.delivery_lists = some dl ∧
      getA k t.delivery_tasks = some tid ∧
      delA k t.delivery_tasks = some dts ∧
      PubSubTool.remove_sub_key t k =
        { sub_keys := sks, batch_size := bs, last_sql_run := ls,
          sub_key_locks := lk, delivery_lists := dl, delivery_tasks := dts,
          tasks := PubSubTool.stopTask tid t.tasks,
          next_task_id := t.next_task_id, next_lock_id := t.next_lock_id } := by
  have hsome : listRemove k t.sub_keys ≠ none :=
    fun hres => ((listRemove_eq_none_iff k t.sub_keys).mp hres) hk
  obtain ⟨sks, hsks⟩ := Option.ne_none_iff_exists'.mp hsome
  obtain ⟨bs, hbs⟩ := Option.isSome_iff_exists.mp
    ((delA_isSome_iff k t.batch_size).mpr ((h.bs_mem k).mp hk))
  obtain ⟨ls, hls⟩ := Option.isSome_iff_exists.mp
    ((delA_isSome_iff k t.last_sql_run).mpr ((h.ls_mem k).mp hk))
  obtain ⟨lk, hlk⟩ := Option.isSome_iff_exists.mp
    ((delA_isSome_iff k t.sub_key_locks).mpr ((h.lk_mem k).mp hk))
  obtain ⟨dl, hdl⟩ := Option.isSome_iff_exists.mp
    ((delA_isSome_iff k t.delivery_lists).mpr ((h.dl_mem k).mp hk))
  obtain ⟨tid, htid⟩ := Option.isSome_iff_exists.mp ((h.dt_mem k).mp hk)
  obtain ⟨dts, hdts⟩ := Option.isSome_iff_exists.mp
    ((delA_isSome_iff k t.delivery_tasks).mpr ((h.dt_mem k).mp hk))
  refine ⟨sks, bs, ls, lk, dl, tid, dts, hsks, hbs, hls, hlk, hdl, htid, hdts, ?_⟩
  simp only [PubSubTool.remove_sub_key, hsks, hbs, hls, hlk, hdl, htid, hdts]

/-- Removing a key that is not registered changes nothing (the first teardown
step raises and the `except` clause swallows it). -/
theorem remove_sub_key_not_mem (t : PubSubTool) (k : String)
    (hk : k ∉ t.sub_keys) : PubSubTool.remove_sub_key t k = t := by
  have hres : listRemove k t.sub_keys = none := (listRemove_eq_none_iff k t.sub_keys).mpr hk
  simp only [PubSubTool.remove_sub_key, hres]

/-- `(getA tid' (stopTask tid ts)).isSome` agrees with the original store. -/
theorem getA_stopTask_isSome (tid tid' : Nat) (ts : List (Nat × DTaskState)) :
    (getA tid' (PubSubTool.stopTask tid ts)).isSome = (getA tid' ts).isSome := by
  rw [getA_stopTask]
  cases getA tid' ts <;> rfl

/-- Removing a registered key from a well-formed registry keeps the registry
well-formed, erases every per-key trace of the key, preserves every other
key, stops the removed key's task, and at most stops (never restarts) any
other task. -/
theorem remove_sub_key_spec (t : PubSubTool) (k : String) (h : WF t)
    (hk : k ∈ t.sub_keys) :
    WF (PubSubTool.remove_sub_key t k) ∧
    k ∉ (PubSubTool.remove_sub_key t k).sub_keys ∧
    getA k (PubSubTool.remove_sub_key t k).batch_size = none ∧
    getA k (PubSubTool.remove_sub_key t k).last_sql_run = none ∧
    getA k (PubSubTool.remove_sub_key t k).sub_key_locks = none ∧
    getA k (PubSubTool.remove_sub_key t k).delivery_lists = none ∧
    getA k (PubSubTool.remove_sub_key t k).delivery_tasks = none ∧
    (∀ k', k' ≠ k → getA k' (PubSubTool.remove_sub_key t k).delivery_tasks =
      getA k' t.delivery_tasks) ∧
    (∀ tid dt, getA tid t.tasks = some dt →
      ∃ dt', getA tid (PubSubTool.remove_sub_key t k).tasks = some dt' ∧
        (dt' = dt ∨ dt'.keep_running = false)) ∧
    (∀ tid, getA k t.delivery_tasks = some tid →
      ∃ dt', getA tid (PubSubTool.remove_sub_key t k).tasks = some dt' ∧
        dt'.keep_running = false) := by
  obtain ⟨sks, bs, ls, lk, dl, tid, dts, hsks, hbs, hls, hlk, hdl, htid, hdts, heq⟩ :=
    remove_sub_key_eq t k h hk
  rw [heq]
  have hmem_iff : ∀ k', k' ≠ k → (k' ∈ sks ↔ k' ∈ t.sub_keys) :=
    fun k' hne => mem_listRemove_of_ne hne hsks
  refine ⟨?_, not_mem_listRemove h.sk_nodup hsks,
    getA_delA_self h.bs_nodup hbs, getA_delA_self h.ls_nodup hls,
    getA_delA_self h.lk_nodup hlk, getA_delA_self h.dl_nodup hdl,
    getA_delA_self h.dt_nodup hdts, ?_, ?_, ?_⟩
  · -- well-formedness of the result
    refine ⟨h.sk_nodup.sublist (listRemove_sublist hsks), ?_, ?_, ?_, ?_, ?_,
      h.bs_nodup.sublist (delA_fst_sublist hbs),
      h.ls_nodup.sublist (delA_fst_sublist hls),
      h.lk_nodup.sublist (delA_fst_sublist hlk),
      h.dl_nodup.sublist (delA_fst_sublist hdl),
      h.dt_nodup.sublist (delA_fst_sublist hdts), ?_⟩
    · intro k'
      by_cases hne : k' = k
      · subst hne
        simp [not_mem_listRemove h.sk_nodup hsks, getA_delA_self h.bs_nodup hbs]
      · rw [getA_delA_ne hne hbs]
        exact (hmem_iff k' hne).trans (h.bs_mem k')
    · intro k'
      by_cases hne : k' = k
      · subst hne
        simp [not_mem_listRemove h.sk_nodup hsks, getA_delA_self h.ls_nodup hls]
      · rw [getA_delA_ne hne hls]
        exact (hmem_iff k' hne).trans (h.ls_mem k')
    · intro k'
      by_cases hne : k' = k
      · subst hne
        simp [not_mem_listRemove h.sk_nodup hsks, getA_delA_self h.lk_nodup hlk]
      · rw [getA_delA_ne hne hlk]
        exact (hmem_iff k' hne).trans (h.lk_mem k')
    · intro k'
      by_cases hne : k' = k
      · subst hne
        simp [not_mem_listRemove h.sk_nodup hsks, getA_delA_self h.dl_nodup hdl]
      · rw [getA_delA_ne hne hdl]
        exact (hmem_iff k' hne).trans (h.dl_mem k')
    · intro k'
      by_cases hne : k' = k
      · subst hne
        simp [not_mem_listRemove h.sk_nodup hsks, getA_delA_self h.dt_nodup hdts]
      · rw [getA_delA_ne hne hdts]
        exact (hmem_iff k' hne).trans (h.dt_mem k')
    · intro k' tid' hbind
      by_cases hne : k' = k
      · subst hne
        rw [getA_delA_self h.dt_nodup hdts] at hbind
        exact absurd hbind (by simp)
      · rw [getA_delA_ne hne hdts] at hbind
        rw [getA_stopTask_isSome]
        exact h.dt_task k' tid' hbind
  · intro k' hne
    exact getA_delA_ne hne hdts
  · intro tid' dt hdt
    by_cases hne : tid' = tid
    · subst hne
      exact ⟨{ dt with keep_running := false },
        by rw [getA_stopTask, hdt]; simp, Or.inr rfl⟩
    · exact ⟨dt, by rw [getA_stopTask, hdt]; simp [hne], Or.inl rfl⟩
  · intro tid' htid'
    have htt : tid' = tid := by
      rw [htid] at htid'
      exact Option.some_injective _ htid'.symm
    subst htt
    obtain ⟨dt0, hdt0⟩ := Option.isSome_iff_exists.mp (h.dt_task k tid' htid)
    exact ⟨{ dt0 with keep_running := false },
      by rw [getA_stopTask, hdt0]; simp, rfl⟩

/-- Folding `remove_sub_key` over the snapshot of a well-formed registry's
keys empties `sub_keys`, keeps well-formedness, at most stops tasks, and
stops the task of every snapshot key. -/
theorem remove_all_aux :
    ∀ (ks : List String) (t : PubSubTool), WF t → t.sub_keys = ks →
      WF (List.foldl PubSubTool.remove_sub_key t ks) ∧
      (List.foldl PubSubTool.remove_sub_key t ks).sub_keys = [] ∧
      (∀ tid dt, getA tid t.tasks = some dt →
        ∃ dt', getA tid (List.foldl PubSubTool.remove_sub_key t ks).tasks = some dt' ∧
          (dt' = dt ∨ dt'.keep_running = false)) ∧
      (∀ k tid, k ∈ ks → getA k t.delivery_tasks = some tid →
        ∃ dt', getA tid (List.foldl PubSubTool.remove_sub_key t ks).tasks = some dt' ∧
          dt'.keep_running = false) := by
  intro ks
  induction ks with
  | nil =>
    intro t h hsk
    exact ⟨h, hsk, fun tid dt hdt => ⟨dt, hdt, Or.inl rfl⟩, by simp⟩
  | cons k rest ih =>
    intro t h hsk
    have hk : k ∈ t.sub_keys := by rw [hsk]; exact List.mem_cons_self k rest
    obtain ⟨sks, bs, ls, lk, dl, tid0, dts, hsks, hbs, hls, hlk, hdl, htid0, hdts, heq⟩ :=
      remove_sub_key_eq t k h hk
    have hsks' : sks = rest := by
      rw [hsk] at hsks
      simpa [listRemove] using hsks.symm
    have hsub1 : (PubSubTool.remove_sub_key t k).sub_keys = rest := by
      rw [heq]; exact hsks'
    obtain ⟨hWF1, _, _, _, _, _, _, hframe, hmono, hstop⟩ := remove_sub_key_spec t k h hk
    have hfold : List.foldl PubSubTool.remove_sub_key t (k :: rest) =
        List.foldl PubSubTool.remove_sub_key (PubSubTool.remove_sub_key t k) rest := rfl
    obtain ⟨ihWF, ihnil, ihmono, ihstop⟩ := ih (PubSubTool.remove_sub_key t k) hWF1 hsub1
    refine ⟨by rw [hfold]; exact ihWF, by rw [hfold]; exact ihnil, ?_, ?_⟩
    · intro tid dt hdt
      obtain ⟨dt1, hdt1, hcase1⟩ := hmono tid dt hdt
      obtain ⟨dt2, hdt2, hcase2⟩ := ihmono tid dt1 hdt1
      rw [hfold]
      refine ⟨dt2, hdt2, ?_⟩
      rcases hcase2 with rfl | h2
      · exact hcase1
      · exact Or.inr h2
    · intro k' tid hk' htid'
      rw [hfold]
      rcases List.mem_cons.mp hk' with rfl | hk'rest
      · obtain ⟨dt1, hdt1, hkeep1⟩ := hstop tid htid'
        obtain ⟨dt2, hdt2, hcase2⟩ := ihmono tid dt1 hdt1
        refine ⟨dt2, hdt2, ?_⟩
        rcases hcase2 with rfl | h2
        · exact hkeep1
        · exact h2
      · have hne : k' ≠ k := by
          intro hcontra
          subst hcontra
          have hnd := h.sk_nodup
          rw [hsk] at hnd
          exact (List.nodup_cons.mp hnd).1 hk'rest
        have htid1 : getA k' (PubSubTool.remove_sub_key t k).delivery_tasks = some tid := by
          rw [hframe k' hne]; exact htid'
        exact ihstop k' tid hk'rest htid1

/-- The empty registry is well-formed. -/
theorem WF_init : WF PubSubTool.init := by
  constructor <;> simp [PubSubTool.init, getA]

/-- Registering a key preserves registry well-formedness. -/
theorem WF_add_sub_key (t : PubSubTool) (k : String) (h : WF t) :
    WF (PubSubTool.add_sub_key t k) := by
  by_cases hk : k ∈ t.sub_keys
  · rw [add_sub_key_mem t k hk]; exact h
  · have hbs_none : getA k t.batch_size = none := by
      cases ho : getA k t.batch_size with
      | none => rfl
      | some v => exact absurd ((h.bs_mem k).mpr (by rw [ho]; rfl)) hk
    have hls_none : getA k t.last_sql_run = none := by
      cases ho : getA k t.last_sql_run with
      | none => rfl
      | some v => exact absurd ((h.ls_mem k).mpr (by rw [ho]; rfl)) hk
    have hlk_none : getA k t.sub_key_locks = none := by
      cases ho : getA k t.sub_key_locks with
      | none => rfl
      | some v => exact absurd ((h.lk_mem k).mpr (by rw [ho]; rfl)) hk
    have hdl_none : getA k t.delivery_lists = none := by
      cases ho : getA k t.delivery_lists with
      | none => rfl
      | some v => exact absurd ((h.dl_mem k).mpr (by rw [ho]; rfl)) hk
    have hdt_none : getA k t.delivery_tasks = none := by
      cases ho : getA k t.delivery_tasks with
      | none => rfl
      | some v => exact absurd ((h.dt_mem k).mpr (by rw [ho]; rfl)) hk
    rw [add_sub_key_fresh t k hk]
    constructor
    · simp [List.nodup_append, h.sk_nodup, hk]
    · intro k'
      rw [getA_setA_isSome, ← h.bs_mem k']
      simp [List.mem_append, or_comm]
    · intro k'
      rw [getA_setA_isSome, ← h.ls_mem k']
      simp [List.mem_append, or_comm]
    · intro k'
      rw [getA_setA_isSome, ← h.lk_mem k']
      simp [List.mem_append, or_comm]
    · intro k'
      rw [getA_setA_isSome, ← h.dl_mem k']
      simp [List.mem_append, or_comm]
    · intro k'
      rw [getA_setA_isSome, ← h.dt_mem k']
      simp [List.mem_append, or_comm]
    · rw [setA_of_getA_none 1 hbs_none]
      simp [List.nodup_append, h.bs_nodup, (getA_eq_none_iff k t.batch_size).mp hbs_none]
    · rw [setA_of_getA_none none hls_none]
      simp [List.nodup_append, h.ls_nodup, (getA_eq_none_iff k t.last_sql_run).mp hls_none]
    · rw [setA_of_getA_none t.next_lock_id hlk_none]
      simp [List.nodup_append, h.lk_nodup, (getA_eq_none_iff k t.sub_key_locks).mp hlk_none]
    · rw [setA_of_getA_none [] hdl_none]
      simp [List.nodup_append, h.dl_nodup, (getA_eq_none_iff k t.delivery_lists).mp hdl_none]
    · rw [setA_of_getA_none t.next_task_id hdt_none]
      simp [List.nodup_append, h.dt_nodup, (getA_eq_none_iff k t.delivery_tasks).mp hdt_none]
    · intro k' tid' hbind
      by_cases hne : k' = k
      · subst hne
        rw [getA_setA_self] at hbind
        have htid2 : tid' = t.next_task_id := (Option.some_injective _ hbind).symm
        subst htid2
        cases ho : getA t.next_task_id t.tasks with
        | none =>
          rw [getA_append_of_none _ ho]
          simp [getA]
        | some dt0 =>
          rw [getA_append_of_some _ ho]
          rfl
      · rw [getA_setA_ne _ _ hne] at hbind
        obtain ⟨dt0, hdt0⟩ := Option.isSome_iff_exists.mp (h.dt_task k' tid' hbind)
        rw [getA_append_of_some _ hdt0]
        rfl

/-- C7: on a well-formed registry, removing a registered key erases every
per-key trace of it (entry in `sub_keys` and bindings in `batch_size`,
`last_sql_run`, `sub_key_locks`, `delivery_lists`, `delivery_tasks`) and stops
its delivery task; teardown of an unregistered key is swallowed without any
state change (the model's total return type reflects that nothing is raised
to the caller); and `remove_all_sub_keys` leaves every per-key structure empty
with the task of every registered key stopped. -/
theorem claim_C7 (t : PubSubTool) (k : String) (h : WF t) :
    (k ∈ t.sub_keys →
      k ∉ (PubSubTool.remove_sub_key t k).sub_keys ∧
      getA k (PubSubTool.remove_sub_key t k).batch_size = none ∧
      getA k (PubSubTool.remove_sub_key t k).last_sql_run = none ∧
      getA k (PubSubTool.remove_sub_key t k).sub_key_locks = none ∧
      getA k (PubSubTool.remove_sub_key t k).delivery_lists = none ∧
      getA k (PubSubTool.remove_sub_key t k).delivery_tasks = none ∧
      (∀ tid, getA k t.delivery_tasks = some tid →
        ∃ dt, getA tid (PubSubTool.remove_sub_key t k).tasks = some dt ∧
          dt.keep_running = false)) ∧
    (k ∉ t.sub_keys → PubSubTool.remove_sub_key t k = t) ∧
    ((PubSubTool.remove_all_sub_keys t).sub_keys = [] ∧
     (PubSubTool.remove_all_sub_keys t).batch_size = [] ∧
     (PubSubTool.remove_all_sub_keys t).last_sql_run = [] ∧
     (PubSubTool.remove_all_sub_keys t).sub_key_locks = [] ∧
     (PubSubTool.remove_all_sub_keys t).delivery_lists = [] ∧
     (PubSubTool.remove_all_sub_keys t).delivery_tasks = [] ∧
     (∀ k' tid, getA k' t.delivery_tasks = some tid →
       ∃ dt, getA tid (PubSubTool.remove_all_sub_keys t).tasks = some dt ∧
         dt.keep_running = false)) := by
  obtain ⟨fWF, fnil, fmono, fstop⟩ := remove_all_aux t.sub_keys t h rfl
  have hra : PubSubTool.remove_all_sub_keys t =
      List.foldl PubSubTool.remove_sub_key t t.sub_keys := rfl
  refine ⟨?_, remove_sub_key_not_mem t k, ?_⟩
  · intro hk
    obtain ⟨_, h2, h3, h4, h5, h6, h7, _, _, h10⟩ := remove_sub_key_spec t k h hk
    exact ⟨h2, h3, h4, h5, h6, h7, h10⟩
  · rw [hra]
    have hnomem : ∀ k' : String, k' ∉ (List.foldl PubSubTool.remove_sub_key t t.sub_keys).sub_keys := by
      rw [fnil]; intro k'; exact List.not_mem_nil k'
    have hbs : ∀ k', getA k' (List.foldl PubSubTool.remove_sub_key t t.sub_keys).batch_size = none := by
      intro k'
      cases ho : getA k' (List.foldl PubSubTool.remove_sub_key t t.sub_keys).batch_size with
      | none => rfl
      | some v => exact absurd ((fWF.bs_mem k').mpr (by rw [ho]; rfl)) (hnomem k')
    have hls : ∀ k', getA k' (List.foldl PubSubTool.remove_sub_key t t.sub_keys).last_sql_run = none := by
      intro k'
      cases ho : getA k' (List.foldl PubSubTool.remove_sub_key t t.sub_keys).last_sql_run with
      | none => rfl
      | some v => exact absurd ((fWF.ls_mem k').mpr (by rw [ho]; rfl)) (hnomem k')
    have hlk : ∀ k', getA k' (List.foldl PubSubTool.remove_sub_key t t.sub_keys).sub_key_locks = none := by
      intro k'
      cases ho : getA k' (List.foldl PubSubTool.remove_sub_key t t.sub_keys).sub_key_locks with
      | none => rfl
      | some v => exact absurd ((fWF.lk_mem k').mpr (by rw [ho]; rfl)) (hnomem k')
    have hdl : ∀ k', getA k' (List.foldl PubSubTool.remove_sub_key t t.sub_keys).delivery_lists = none := by
      intro k'
      cases ho : getA k' (List.foldl PubSubTool.remove_sub_key t t.sub_keys).delivery_lists with
      | none => rfl
      | some v => exact absurd ((fWF.dl_mem k').mpr (by rw [ho]; rfl)) (hnomem k')
    have hdt : ∀ k', getA k' (List.foldl PubSubTool.remove_sub_key t t.sub_keys).delivery_tasks = none := by
      intro k'
      cases ho : getA k' (List.foldl PubSubTool.remove_sub_key t t.sub_keys).delivery_tasks with
      | none => rfl
      | some v => exact absurd ((fWF.dt_mem k').mpr (by rw [ho]; rfl)) (hnomem k')
    refine ⟨fnil, eq_nil_of_getA_none hbs, eq_nil_of_getA_none hls,
      eq_nil_of_getA_none hlk, eq_nil_of_getA_none hdl, eq_nil_of_getA_none hdt, ?_⟩
    intro k' tid hbind
    have hk' : k' ∈ t.sub_keys := (h.dt_mem k').mpr (by rw [hbind]; rfl)
    exact fstop k' tid hk' hbind

/-- Witness for C7: a registry holding the single key `k1`; removal of `k1`
erases it and stops its task, removal of the unknown `k2` is a no-op, and
bulk removal empties everything. -/
theorem claim_C7_witness :
    ("k1" ∈ (PubSubTool.add_sub_key PubSubTool.init "k1").sub_keys ∧
     "k2" ∉ (PubSubTool.add_sub_key PubSubTool.init "k1").sub_keys) ∧
    ("k1" ∉ (PubSubTool.remove_sub_key (PubSubTool.add_sub_key PubSubTool.init "k1") "k1").sub_keys ∧
     getA "k1" (PubSubTool.remove_sub_key (PubSubTool.add_sub_key PubSubTool.init "k1") "k1").batch_size = none ∧
     getA "k1" (PubSubTool.remove_sub_key (PubSubTool.add_sub_key PubSubTool.init "k1") "k1").last_sql_run = none ∧
     getA "k1" (PubSubTool.remove_sub_key (PubSubTool.add_sub_key PubSubTool.init "k1") "k1").sub_key_locks = none ∧
     getA "k1" (PubSubTool.remove_sub_key (PubSubTool.add_sub_key PubSubTool.init "k1") "k1").delivery_lists = none ∧
     getA "k1" (PubSubTool.remove_sub_key (PubSubTool.add_sub_key PubSubTool.init "k1") "k1").delivery_tasks = none ∧
     (∀ tid, getA "k1" (PubSubTool.add_sub_key PubSubTool.init "k1").delivery_tasks = some tid →
       ∃ dt, getA tid (PubSubTool.remove_sub_key (PubSubTool.add_sub_key PubSubTool.init "k1") "k1").tasks = some dt ∧
         dt.keep_running = false)) ∧
    PubSubTool.remove_sub_key (PubSubTool.add_sub_key PubSubTool.init "k1") "k2" =
      PubSubTool.add_sub_key PubSubTool.init "k1" ∧
    ((PubSubTool.remove_all_sub_keys (PubSubTool.add_sub_key PubSubTool.init "k1")).sub_keys = [] ∧
     (PubSubTool.remove_all_sub_keys (PubSubTool.add_sub_key PubSubTool.init "k1")).batch_size = [] ∧
     (PubSubTool.remove_all_sub_keys (PubSubTool.add_sub_key PubSubTool.init "k1")).last_sql_run = [] ∧
     (PubSubTool.remove_all_sub_keys (PubSubTool.add_sub_key PubSubTool.init "k1")).sub_key_locks = [] ∧
     (PubSubTool.remove_all_sub_keys (PubSubTool.add_sub_key PubSubTool.init "k1")).delivery_lists = [] ∧
     (PubSubTool.remove_all_sub_keys (PubSubTool.add_sub_key PubSubTool.init "k1")).delivery_tasks = [] ∧
     (∀ k' tid, getA k' (PubSubTool.add_sub_key PubSubTool.init "k1").delivery_tasks = some tid →
       ∃ dt, getA tid (PubSubTool.remove_all_sub_keys (PubSubTool.add_sub_key PubSubTool.init "k1")).tasks = some dt ∧
         dt.keep_running = false)) :=
  ⟨⟨by decide, by decide⟩,
   (claim_C7 (PubSubTool.add_sub_key PubSubTool.init "k1") "k1"
     (WF_add_sub_key PubSubTool.init "k1" WF_init)).1 (by decide),
   (claim_C7 (PubSubTool.add_sub_key PubSubTool.init "k1") "k2"
     (WF_add_sub_key PubSubTool.init "k1" WF_init)).2.1 (by decide),
   (claim_C7 (PubSubTool.add_sub_key PubSubTool.init "k1") "k1"
     (WF_add_sub_key PubSubTool.init "k1" WF_init)).2.2⟩

/-! ## Enqueue and fetch (C5, C8, C9) -/

/-- Re-assigning the value a key already holds leaves the dict unchanged. -/
theorem setA_getA_self {κ α : Type} [DecidableEq κ] {k : κ} {v : α} :
    ∀ {l : List (κ × α)}, getA k l = some v → setA k v l = l := by
  intro l
  induction l with
  | nil => intro h; simp [getA] at h
  | cons p rest ih =>
    intro h
    by_cases hp : p.1 = k
    · have hv : p.2 = v := by simpa [getA, hp] using h
      subst hv
      subst hp
      simp [setA]
    · simp [getA, hp] at h
      simp [setA, hp, ih h]

/-- `_fetch_gd_messages_by_sub_key`'s insertion loop touches nothing but the
key's own delivery list. -/
theorem add_gd_messages_frame (k : String) :
    ∀ (msgs : List Message) (t t' : PubSubTool),
      PubSubTool.add_gd_messages t k msgs = some t' →
      t'.sub_keys = t.sub_keys ∧ t'.batch_size = t.batch_size ∧
      t'.last_sql_run = t.last_sql_run ∧ t'.sub_key_locks = t.sub_key_locks ∧
      t'.delivery_tasks = t.delivery_tasks ∧ t'.tasks = t.tasks ∧
      t'.next_task_id = t.next_task_id ∧ t'.next_lock_id = t.next_lock_id ∧
      (∀ k', k' ≠ k → getA k' t'.delivery_lists = getA k' t.delivery_lists) ∧
      (getA k t'.delivery_lists).isSome = (getA k t.delivery_lists).isSome := by
  intro msgs
  induction msgs with
  | nil =>
    intro t t' h
    simp [PubSubTool.add_gd_messages] at h
    subst h
    exact ⟨rfl, rfl, rfl, rfl, rfl, rfl, rfl, rfl, fun k' _ => rfl, rfl⟩
  | cons m rest ih =>
    intro t t' h
    simp only [PubSubTool.add_gd_messages] at h
    cases hdl : getA k t.delivery_lists with
    | none => rw [hdl] at h; simp at h
    | some dl =>
      rw [hdl] at h
      simp only [Option.bind_eq_bind, Option.some_bind] at h
      obtain ⟨h1, h2, h3, h4, h5, h6, h7, h8, h9, h10⟩ := ih _ _ h
      dsimp only at h9 h10
      rw [getA_setA_self] at h10
      refine ⟨h1, h2, h3, h4, h5, h6, h7, h8, ?_, ?_⟩
      · intro k' hne
        rw [h9 k' hne]
        exact getA_setA_ne _ _ hne
      · rw [h10]
        rfl

/-- The insertion loop succeeds whenever the key has a delivery list. -/
theorem add_gd_messages_isSome (k : String) :
    ∀ (msgs : List Message) (t : PubSubTool),
      (getA k t.delivery_lists).isSome = true →
      ∃ t', PubSubTool.add_gd_messages t k msgs = some t' := by
  intro msgs
  induction msgs with
  | nil => intro t _; exact ⟨t, rfl⟩
  | cons m rest ih =>
    intro t hdl
    obtain ⟨dl, hdl'⟩ := Option.isSome_iff_exists.mp hdl
    obtain ⟨t', ht'⟩ := ih
      { t with delivery_lists := setA k (SortedList.add (GDMessage m) dl) t.delivery_lists }
      (by rw [getA_setA_self]; rfl)
    refine ⟨t', ?_⟩
    simp only [PubSubTool.add_gd_messages, hdl', Option.bind_eq_bind, Option.some_bind]
    exact ht'

/-- `_add_non_gd_messages_by_sub_key`'s loop touches nothing but the key's own
delivery list. -/
theorem add_non_gd_frame (k : String) :
    ∀ (msgs : List (List (String × Int))) (t t' : PubSubTool),
      PubSubTool.add_non_gd_messages_no_lock t k msgs = some t' →
      t'.sub_keys = t.sub_keys ∧ t'.batch_size = t.batch_size ∧
      t'.last_sql_run = t.last_sql_run ∧ t'.sub_key_locks = t.sub_key_locks ∧
      t'.delivery_tasks = t.delivery_tasks ∧ t'.tasks = t.tasks ∧
      (∀ k', k' ≠ k → getA k' t'.delivery_lists = getA k' t.delivery_lists) ∧
      (getA k t'.delivery_lists).isSome = (getA k t.delivery_lists).isSome := by
  intro msgs
  induction msgs with
  | nil =>
    intro t t' h
    simp [PubSubTool.add_non_gd_messages_no_lock] at h
    subst h
    exact ⟨rfl, rfl, rfl, rfl, rfl, rfl, fun k' _ => rfl, rfl⟩
  | cons d rest ih =>
    intro t t' h
    simp only [PubSubTool.add_non_gd_messages_no_lock] at h
    cases hdl : getA k t.delivery_lists with
    | none => rw [hdl] at h; simp at h
    | some dl =>
      rw [hdl] at h
      simp only [Option.bind_eq_bind, Option.some_bind] at h
      cases hm : NonGDMessage d with
      | none => rw [hm] at h; simp at h
      | some m =>
        rw [hm] at h
        simp only [Option.bind_eq_bind, Option.some_bind] at h
        obtain ⟨h1, h2, h3, h4, h5, h6, h7, h8⟩ := ih _ _ h
        dsimp only at h7 h8
        rw [getA_setA_self] at h8
        refine ⟨h1, h2, h3, h4, h5, h6, ?_, ?_⟩
        · intro k' hne
          rw [h7 k' hne]
          exact getA_setA_ne _ _ hne
        · rw [h8]
          rfl

/-- The ephemeral-append loop succeeds whenever the key has a delivery list
and every payload is well-formed. -/
theorem add_non_gd_isSome (k : String) :
    ∀ (msgs : List (List (String × Int))),
      (∀ d ∈ msgs, (NonGDMessage d).isSome = true) →
      ∀ (t : PubSubTool), (getA k t.delivery_lists).isSome = true →
      ∃ t', PubSubTool.add_non_gd_messages_no_lock t k msgs = some t' := by
  intro msgs
  induction msgs with
  | nil => intro _ t _; exact ⟨t, rfl⟩
  | cons d rest ih =>
    intro hmsgs t hdl
    obtain ⟨dl, hdl'⟩ := Option.isSome_iff_exists.mp hdl
    obtain ⟨m, hm⟩ := Option.isSome_iff_exists.mp (hmsgs d (by simp))
    obtain ⟨t', ht'⟩ := ih (fun d' hd' => hmsgs d' (by simp [hd']))
      { t with delivery_lists := setA k (SortedList.add m dl) t.delivery_lists }
      (by rw [getA_setA_self]; rfl)
    refine ⟨t', ?_⟩
    simp only [PubSubTool.add_non_gd_messages_no_lock, hdl', hm, Option.bind_eq_bind, Option.some_bind]
    exact ht'

/-- Closed form of the ephemeral-append loop: each well-formed payload is
wrapped and inserted, in order, into the key's sorted delivery list. -/
theorem add_non_gd_eq (k : String) :
    ∀ (msgs : List (List (String × Int))) (t : PubSubTool) (dl pms : List Message),
      getA k t.delivery_lists = some dl →
      parseNonGDAll msgs = some pms →
      PubSubTool.add_non_gd_messages_no_lock t k msgs =
        some { t with delivery_lists := setA k (insertAllSorted dl pms) t.delivery_lists } := by
  intro msgs
  induction msgs with
  | nil =>
    intro t dl pms hdl hp
    simp [parseNonGDAll] at hp
    subst hp
    simp [PubSubTool.add_non_gd_messages_no_lock, insertAllSorted, setA_getA_self hdl]
  | cons d rest ih =>
    intro t dl pms hdl hp
    simp only [parseNonGDAll] at hp
    cases hm : NonGDMessage d with
    | none => rw [hm] at hp; simp at hp
    | some m =>
      rw [hm] at hp
      simp only [Option.bind_eq_bind, Option.some_bind] at hp
      cases hrest : parseNonGDAll rest with
      | none => rw [hrest] at hp; simp at hp
      | some ms =>
        rw [hrest] at hp
        simp only [Option.bind_eq_bind, Option.some_bind] at hp
        have hpms : pms = m :: ms := (Option.some_injective _ hp).symm
        subst hpms
        simp only [PubSubTool.add_non_gd_messages_no_lock, hdl, hm, Option.bind_eq_bind, Option.some_bind]
        have hih := ih
          { t with delivery_lists := setA k (SortedList.add m dl) t.delivery_lists }
          (SortedList.add m dl) ms (by rw [getA_setA_self]) hrest
        rw [hih]
        simp [insertAllSorted, setA_setA]

/-- Destructuring a successful low-level durable fetch: the last-SQL-run
marker was read, the returned rows were inserted, and exactly one fetch call
(for this key) was made. -/
theorem fetch_no_lock_cases (get_sql : String → Option Int → List Message)
    (t t' : PubSubTool) (k : String) (calls : List String)
    (h : PubSubTool.fetch_gd_messages_by_sub_key_no_lock get_sql t k = some (t', calls)) :
    ∃ last, getA k t.last_sql_run = some last ∧
      PubSubTool.add_gd_messages t k (get_sql k last) = some t' ∧ calls = [k] := by
  simp only [PubSubTool.fetch_gd_messages_by_sub_key_no_lock] at h
  cases hlast : getA k t.last_sql_run with
  | none => rw [hlast] at h; simp at h
  | some last =>
    rw [hlast] at h
    simp only [Option.bind_eq_bind, Option.some_bind] at h
    cases hadd : PubSubTool.add_gd_messages t k (get_sql k last) with
    | none => rw [hadd] at h; simp at h
    | some t1 =>
      rw [hadd] at h
      simp only [Option.bind_eq_bind, Option.some_bind, Option.some.injEq,
        Prod.mk.injEq] at h
      exact ⟨last, rfl, by rw [hadd, h.1], h.2.symm⟩

/-- C9: a durable fetch (low-level or locked) leaves `last_sql_run` entirely
unchanged — in particular a marker that is still at its unset registration
value stays unset, so a repeated fetch re-requests the same window — makes
exactly one persistence query scoped to the key, and modifies nothing in the
registry except that key's own delivery list. -/
theorem claim_C9 (get_sql : String → Option Int → List Message)
    (t t' : PubSubTool) (k : String) (calls : List String) :
    (PubSubTool.fetch_gd_messages_by_sub_key_no_lock get_sql t k = some (t', calls) →
      t'.last_sql_run = t.last_sql_run ∧
      getA k t'.last_sql_run = getA k t.last_sql_run ∧
      (getA k t.last_sql_run = some none → getA k t'.last_sql_run = some none) ∧
      t'.sub_keys = t.sub_keys ∧ t'.batch_size = t.batch_size ∧
      t'.sub_key_locks = t.sub_key_locks ∧ t'.delivery_tasks = t.delivery_tasks ∧
      t'.tasks = t.tasks ∧ calls = [k] ∧
      (∀ k', k' ≠ k → getA k' t'.delivery_lists = getA k' t.delivery_lists)) ∧
    (PubSubTool.fetch_gd_messages_by_sub_key get_sql t k = some (t', calls) →
      t'.last_sql_run = t.last_sql_run ∧
      getA k t'.last_sql_run = getA k t.last_sql_run ∧
      (getA k t.last_sql_run = some none → getA k t'.last_sql_run = some none) ∧
      t'.sub_keys = t.sub_keys ∧ t'.batch_size = t.batch_size ∧
      t'.sub_key_locks = t.sub_key_locks ∧ t'.delivery_tasks = t.delivery_tasks ∧
      t'.tasks = t.tasks ∧ calls = [k] ∧
      (∀ k', k' ≠ k → getA k' t'.delivery_lists = getA k' t.delivery_lists)) := by
  have main : PubSubTool.fetch_gd_messages_by_sub_key_no_lock get_sql t k = some (t', calls) →
      t'.last_sql_run = t.last_sql_run ∧
      getA k t'.last_sql_run = getA k t.last_sql_run ∧
      (getA k t.last_sql_run = some none → getA k t'.last_sql_run = some none) ∧
      t'.sub_keys = t.sub_keys ∧ t'.batch_size = t.batch_size ∧
      t'.sub_key_locks = t.sub_key_locks ∧ t'.delivery_tasks = t.delivery_tasks ∧
      t'.tasks = t.tasks ∧ calls = [k] ∧
      (∀ k', k' ≠ k → getA k' t'.delivery_lists = getA k' t.delivery_lists) := by
    intro h
    obtain ⟨last, hlast, hadd, hc⟩ := fetch_no_lock_cases get_sql t t' k calls h
    obtain ⟨f1, f2, f3, f4, f5, f6, f7, f8, f9, f10⟩ := add_gd_messages_frame k _ _ _ hadd
    exact ⟨f3, by rw [f3], fun hun => by rw [f3]; exact hun, f1, f2, f4, f5, f6, hc, f9⟩
  refine ⟨main, ?_⟩
  intro h
  simp only [PubSubTool.fetch_gd_messages_by_sub_key] at h
  cases hlk : getA k t.sub_key_locks with
  | none => rw [hlk] at h; simp at h
  | some lk =>
    rw [hlk] at h
    simp only [Option.bind_eq_bind, Option.some_bind] at h
    exact main h

/-- Witness for C9: fetching for the registered key `k1` with a persistence
stub returning one row. -/
theorem claim_C9_witness :
    PubSubTool.fetch_gd_messages_by_sub_key (fun _ _ => [mkTestMsg 7 5 0 0])
        (PubSubTool.add_sub_key PubSubTool.init "k1") "k1" =
      some ({ PubSubTool.add_sub_key PubSubTool.init "k1" with
        delivery_lists := setA "k1" [GDMessage (mkTestMsg 7 5 0 0)]
          (PubSubTool.add_sub_key PubSubTool.init "k1").delivery_lists }, ["k1"]) ∧
    ({ PubSubTool.add_sub_key PubSubTool.init "k1" with
        delivery_lists := setA "k1" [GDMessage (mkTestMsg 7 5 0 0)]
          (PubSubTool.add_sub_key PubSubTool.init "k1").delivery_lists } : PubSubTool).last_sql_run =
      (PubSubTool.add_sub_key PubSubTool.init "k1").last_sql_run ∧
    getA "k1" ({ PubSubTool.add_sub_key PubSubTool.init "k1" with
        delivery_lists := setA "k1" [GDMessage (mkTestMsg 7 5 0 0)]
          (PubSubTool.add_sub_key PubSubTool.init "k1").delivery_lists } : PubSubTool).last_sql_run =
      getA "k1" (PubSubTool.add_sub_key PubSubTool.init "k1").last_sql_run :=
  ⟨by decide,
   ((claim_C9 (fun _ _ => [mkTestMsg 7 5 0 0]) (PubSubTool.add_sub_key PubSubTool.init "k1")
      { PubSubTool.add_sub_key PubSubTool.init "k1" with
        delivery_lists := setA "k1" [GDMessage (mkTestMsg 7 5 0 0)]
          (PubSubTool.add_sub_key PubSubTool.init "k1").delivery_lists }
      "k1" ["k1"]).2 (by decide)).1,
   ((claim_C9 (fun _ _ => [mkTestMsg 7 5 0 0]) (PubSubTool.add_sub_key PubSubTool.init "k1")
      { PubSubTool.add_sub_key PubSubTool.init "k1" with
        delivery_lists := setA "k1" [GDMessage (mkTestMsg 7 5 0 0)]
          (PubSubTool.add_sub_key PubSubTool.init "k1").delivery_lists }
      "k1" ["k1"]).2 (by decide)).2.1⟩

/-- A fan-out call with `has_gd = False` never performs a durable fetch: when
it returns at all, its fetch-call trace is empty. -/
theorem handle_no_gd_calls (get_sql : String → Option Int → List Message) (cid : Int) :
    ∀ (ks : List String) (t t' : PubSubTool) (msgs : List (List (String × Int)))
      (calls : List String),
      PubSubTool.handle_new_messages get_sql t cid false ks msgs = some (t', calls) →
      calls = [] := by
  intro ks
  induction ks with
  | nil =>
    intro t t' msgs calls h
    simp [PubSubTool.handle_new_messages] at h
    exact h.2
  | cons k rest ih =>
    intro t t' msgs calls h
    cases hlk : getA k t.sub_key_locks with
    | none => simp [PubSubTool.handle_new_messages, hlk] at h
    | some lk =>
      cases hmt : msgs.isEmpty with
      | true =>
        cases hrec : PubSubTool.handle_new_messages get_sql t cid false rest msgs with
        | none => simp [PubSubTool.handle_new_messages, hlk, hmt, hrec] at h
        | some q =>
          simp [PubSubTool.handle_new_messages, hlk, hmt, hrec] at h
          subst h
          exact ih t t' msgs calls hrec
      | false =>
        cases hadd : PubSubTool.add_non_gd_messages_no_lock t k msgs with
        | none => simp [PubSubTool.handle_new_messages, hlk, hmt, hadd] at h
        | some t2 =>
          cases hrec : PubSubTool.handle_new_messages get_sql t2 cid false rest msgs with
          | none => simp [PubSubTool.handle_new_messages, hlk, hmt, hadd, hrec] at h
          | some q =>
            simp [PubSubTool.handle_new_messages, hlk, hmt, hadd, hrec] at h
            subst h
            exact ih t2 t' msgs calls hrec

/-- A fan-out call on ready keys (lock, last-fetch marker and delivery list
all present) and well-formed payloads succeeds, and its durable-fetch trace is
exactly the key list when `has_gd` and empty otherwise. -/
theorem handle_ready (get_sql : String → Option Int → List Message) (cid : Int)
    (has_gd : Bool) (msgs : List (List (String × Int)))
    (hmsgs : ∀ d ∈ msgs, (NonGDMessage d).isSome = true) :
    ∀ (ks : List String) (t : PubSubTool),
      (∀ k ∈ ks, (getA k t.sub_key_locks).isSome = true ∧
        (getA k t.last_sql_run).isSome = true ∧
        (getA k t.delivery_lists).isSome = true) →
      ∃ t' calls,
        PubSubTool.handle_new_messages get_sql t cid has_gd ks msgs = some (t', calls) ∧
        calls = (if has_gd then ks else []) := by
  intro ks
  induction ks with
  | nil =>
    intro t _
    exact ⟨t, [], rfl, by cases has_gd <;> rfl⟩
  | cons k rest ih =>
    intro t hready
    obtain ⟨hlk, hlast, hdl⟩ := hready k (by simp)
    obtain ⟨lk, hlk'⟩ := Option.isSome_iff_exists.mp hlk
    obtain ⟨t1, calls1, hstage1, hc1, e1lk, e1last, e1dlk, e1dlo⟩ :
        ∃ t1 calls1,
          (if has_gd then PubSubTool.fetch_gd_messages_by_sub_key_no_lock get_sql t k
            else some (t, [])) = some (t1, calls1) ∧
          calls1 = (if has_gd then [k] else ([] : List String)) ∧
          t1.sub_key_locks = t.sub_key_locks ∧
          t1.last_sql_run = t.last_sql_run ∧
          (getA k t1.delivery_lists).isSome = (getA k t.delivery_lists).isSome ∧
          (∀ k', k' ≠ k → getA k' t1.delivery_lists = getA k' t.delivery_lists) := by
      cases has_gd with
      | false => exact ⟨t, [], by simp, by simp, rfl, rfl, rfl, fun _ _ => rfl⟩
      | true =>
        obtain ⟨last, hlast'⟩ := Option.isSome_iff_exists.mp hlast
        obtain ⟨tf, htf⟩ := add_gd_messages_isSome k (get_sql k last) t hdl
        obtain ⟨g1, g2, g3, g4, g5, g6, g7, g8, g9, g10⟩ := add_gd_messages_frame k _ _ _ htf
        refine ⟨tf, [k], ?_, by simp, g4, g3, g10, g9⟩
        simp [PubSubTool.fetch_gd_messages_by_sub_key_no_lock, hlast', htf]
    obtain ⟨t2, hstage2, e2lk, e2last, e2dlk, e2dlo⟩ :
        ∃ t2,
          (if msgs.isEmpty then some t1
            else PubSubTool.add_non_gd_messages_no_lock t1 k msgs) = some t2 ∧
          t2.sub_key_locks = t1.sub_key_locks ∧
          t2.last_sql_run = t1.last_sql_run ∧
          (getA k t2.delivery_lists).isSome = (getA k t1.delivery_lists).isSome ∧
          (∀ k', k' ≠ k → getA k' t2.delivery_lists = getA k' t1.delivery_lists) := by
      cases hmt : msgs.isEmpty with
      | true => exact ⟨t1, by simp [hmt], rfl, rfl, rfl, fun _ _ => rfl⟩
      | false =>
        obtain ⟨t2, ht2⟩ := add_non_gd_isSome k msgs hmsgs t1 (by rw [e1dlk]; exact hdl)
        obtain ⟨n1, n2, n3, n4, n5, n6, n7, n8⟩ := add_non_gd_frame k _ _ _ ht2
        exact ⟨t2, by simp [hmt, ht2], n4, n3, n8, n7⟩
    have hready2 : ∀ k' ∈ rest, (getA k' t2.sub_key_locks).isSome = true ∧
        (getA k' t2.last_sql_run).isSome = true ∧
        (getA k' t2.delivery_lists).isSome = true := by
      intro k' hk'
      obtain ⟨a1, a2, a3⟩ := hready k' (by simp [hk'])
      refine ⟨by rw [e2lk, e1lk]; exact a1, by rw [e2last, e1last]; exact a2, ?_⟩
      by_cases hkk : k' = k
      · subst hkk
        rw [e2dlk, e1dlk]
        exact a3
      · rw [e2dlo k' hkk, e1dlo k' hkk]
        exact a3
    obtain ⟨t', calls2, hrec, hc2⟩ := ih t2 hready2
    refine ⟨t', calls1 ++ calls2, ?_, ?_⟩
    · cases has_gd with
      | true =>
        have hf : PubSubTool.fetch_gd_messages_by_sub_key_no_lock get_sql t k =
            some (t1, calls1) := by simpa using hstage1
        cases hmt : msgs.isEmpty with
        | true =>
          have ht12 : t1 = t2 := by simpa [hmt] using hstage2
          subst ht12
          simp [PubSubTool.handle_new_messages, hlk', hmt, hf, hrec]
        | false =>
          have ha : PubSubTool.add_non_gd_messages_no_lock t1 k msgs = some t2 := by
            simpa [hmt] using hstage2
          simp [PubSubTool.handle_new_messages, hlk', hmt, hf, ha, hrec]
      | false =>
        have hts : t = t1 ∧ [] = calls1 := by simpa using hstage1
        obtain ⟨h1, h2⟩ := hts
        subst h1
        subst h2
        cases hmt : msgs.isEmpty with
        | true =>
          have ht12 : t = t2 := by simpa [hmt] using hstage2
          subst ht12
          simp [PubSubTool.handle_new_messages, hlk', hmt, hrec]
        | false =>
          have ha : PubSubTool.add_non_gd_messages_no_lock t k msgs = some t2 := by
            simpa [hmt] using hstage2
          simp [PubSubTool.handle_new_messages, hlk', hmt, ha, hrec]
    · rw [hc1, hc2]
      cases has_gd <;> simp

/-- A fan-out call with no durable flag and no ephemeral payloads leaves the
registry untouched. -/
theorem handle_idle (get_sql : String → Option Int → List Message) (cid : Int)
    (k : String) (t : PubSubTool)
    (hlk : (getA k t.sub_key_locks).isSome = true) :
    PubSubTool.handle_new_messages get_sql t cid false [k] [] = some (t, []) := by
  obtain ⟨lk, hlk'⟩ := Option.isSome_iff_exists.mp hlk
  simp [PubSubTool.handle_new_messages, hlk']

/-- A fan-out call with no durable flag and a non-empty payload list appends
exactly the wrapped payloads to the key's sorted delivery list. -/
theorem handle_single_append (get_sql : String → Option Int → List Message)
    (cid : Int) (k : String) (t : PubSubTool)
    (msgs : List (List (String × Int))) (dl pms : List Message)
    (hlk : (getA k t.sub_key_locks).isSome = true)
    (hdl : getA k t.delivery_lists = some dl)
    (hne : msgs ≠ [])
    (hp : parseNonGDAll msgs = some pms) :
    PubSubTool.handle_new_messages get_sql t cid false [k] msgs =
      some ({ t with delivery_lists := setA k (insertAllSorted dl pms) t.delivery_lists },
        []) := by
  obtain ⟨lk, hlk'⟩ := Option.isSome_iff_exists.mp hlk
  have hmt : msgs.isEmpty = false := by
    cases msgs with
    | nil => exact absurd rfl hne
    | cons a b => rfl
  have hadd := add_non_gd_eq k msgs t dl pms hdl hp
  simp [PubSubTool.handle_new_messages, hlk', hmt, hadd]

/-- C5: for a fan-out call over registered keys, the durable-fetch trace is
exactly the key list when `has_gd` is true (one fetch scoped to each key, in
order) and empty when it is false; each well-formed payload is wrapped as an
ephemeral message and appended to the key's queue exactly when
`non_gd_msg_list` is non-empty; and with `has_gd` false and no payloads the
registry is returned unchanged. -/
theorem claim_C5 (get_sql : String → Option Int → List Message) (cid : Int)
    (ks : List String) (t t' : PubSubTool) (k : String)
    (msgs : List (List (String × Int))) (dl pms : List Message)
    (calls : List String) :
    ((∀ k' ∈ ks, (getA k' t.sub_key_locks).isSome = true ∧
        (getA k' t.last_sql_run).isSome = true ∧
        (getA k' t.delivery_lists).isSome = true) →
      ∃ u, PubSubTool.handle_new_messages get_sql t cid true ks [] = some (u, ks)) ∧
    (PubSubTool.handle_new_messages get_sql t cid false ks msgs = some (t', calls) →
      calls = []) ∧
    ((getA k t.sub_key_locks).isSome = true → getA k t.delivery_lists = some dl →
      msgs ≠ [] → parseNonGDAll msgs = some pms →
      PubSubTool.handle_new_messages get_sql t cid false [k] msgs =
        some ({ t with delivery_lists := setA k (insertAllSorted dl pms) t.delivery_lists },
          [])) ∧
    ((getA k t.sub_key_locks).isSome = true →
      PubSubTool.handle_new_messages get_sql t cid false [k] [] = some (t, [])) := by
  refine ⟨?_, handle_no_gd_calls get_sql cid ks t t' msgs calls,
    handle_single_append get_sql cid k t msgs dl pms, handle_idle get_sql cid k t⟩
  intro hready
  obtain ⟨u, cs, hu, hc⟩ := handle_ready get_sql cid true [] (by simp) ks t hready
  simp at hc
  subst hc
  exact ⟨u, hu⟩

/-- Witness for C5: the single registered key `k1`, one durable fetch when
`has_gd`, one ephemeral payload appended, and an idle call. -/
theorem claim_C5_witness :
    ((∀ k' ∈ ["k1"],
        (getA k' (PubSubTool.add_sub_key PubSubTool.init "k1").sub_key_locks).isSome = true ∧
        (getA k' (PubSubTool.add_sub_key PubSubTool.init "k1").last_sql_run).isSome = true ∧
        (getA k' (PubSubTool.add_sub_key PubSubTool.init "k1").delivery_lists).isSome = true) ∧
     (∃ u, PubSubTool.handle_new_messages (fun _ _ => [])
        (PubSubTool.add_sub_key PubSubTool.init "k1") 1 true ["k1"] [] = some (u, ["k1"]))) ∧
    (getA "k1" (PubSubTool.add_sub_key PubSubTool.init "k1").delivery_lists = some [] ∧
     parseNonGDAll [mkTestDict 4 5 0 0] = some [mkTestMsg 4 5 0 0] ∧
     PubSubTool.handle_new_messages (fun _ _ => [])
        (PubSubTool.add_sub_key PubSubTool.init "k1") 1 false ["k1"] [mkTestDict 4 5 0 0] =
       some ({ PubSubTool.add_sub_key PubSubTool.init "k1" with
         delivery_lists := setA "k1" (insertAllSorted [] [mkTestMsg 4 5 0 0])
           (PubSubTool.add_sub_key PubSubTool.init "k1").delivery_lists }, [])) ∧
    PubSubTool.handle_new_messages (fun _ _ => [])
        (PubSubTool.add_sub_key PubSubTool.init "k1") 1 false ["k1"] [] =
      some (PubSubTool.add_sub_key PubSubTool.init "k1", []) :=
  ⟨⟨by decide,
    (claim_C5 (fun _ _ => []) 1 ["k1"] (PubSubTool.add_sub_key PubSubTool.init "k1")
      (PubSubTool.add_sub_key PubSubTool.init "k1") "k1" [] [] [] []).1 (by decide)⟩,
   ⟨by decide, by decide,
    (claim_C5 (fun _ _ => []) 1 ["k1"] (PubSubTool.add_sub_key PubSubTool.init "k1")
      (PubSubTool.add_sub_key PubSubTool.init "k1") "k1" [mkTestDict 4 5 0 0] []
      [mkTestMsg 4 5 0 0] []).2.2.1 (by decide) (by decide) (by decide) (by decide)⟩,
   (claim_C5 (fun _ _ => []) 1 ["k1"] (PubSubTool.add_sub_key PubSubTool.init "k1")
      (PubSubTool.add_sub_key PubSubTool.init "k1") "k1" [] [] [] []).2.2.2 (by decide)⟩

/-- C8 counterexample: a fan-out call with an unknown subscription key, and
one with a malformed ephemeral payload, both raise to the calling publisher
(the model returns `none`, the embedding of an uncaught exception), against
the claim that every such failure is absorbed. -/
theorem claim_C8_counterexample :
    PubSubTool.handle_new_messages (fun _ _ => []) PubSubTool.init 1 false ["k1"] [] =
      none ∧
    PubSubTool.handle_new_messages (fun _ _ => [])
      (PubSubTool.add_sub_key PubSubTool.init "k1") 1 false ["k1"]
      [[("pub_msg_id", 1)]] = none := by
  exact ⟨by decide, by decide⟩

/-- C8 (amended): `handle_new_messages` has no exception absorption of its
own: an unknown subscription key in `sub_key_list` raises a `KeyError` to the
publisher, a malformed payload in `non_gd_msg_list` likewise raises, and only
a call whose keys are all registered and whose payloads are all well-formed
completes without an exception. -/
theorem claim_C8 (get_sql : String → Option Int → List Message) (cid : Int)
    (has_gd : Bool) (k : String) (rest ks : List String) (t : PubSubTool)
    (d : List (String × Int)) (msgs more : List (List (String × Int))) :
    (getA k t.sub_key_locks = none →
      PubSubTool.handle_new_messages get_sql t cid has_gd (k :: rest) msgs = none) ∧
    ((getA k t.sub_key_locks).isSome = true → NonGDMessage d = none →
      PubSubTool.handle_new_messages get_sql t cid false (k :: rest) (d :: more) = none) ∧
    ((∀ k' ∈ ks, (getA k' t.sub_key_locks).isSome = true ∧
        (getA k' t.last_sql_run).isSome = true ∧
        (getA k' t.delivery_lists).isSome = true) →
      (∀ d' ∈ msgs, (NonGDMessage d').isSome = true) →
      (PubSubTool.handle_new_messages get_sql t cid has_gd ks msgs).isSome = true) := by
  refine ⟨?_, ?_, ?_⟩
  · intro h
    simp [PubSubTool.handle_new_messages, h]
  · intro hlk hd
    obtain ⟨lk, hlk'⟩ := Option.isSome_iff_exists.mp hlk
    have hadd : PubSubTool.add_non_gd_messages_no_lock t k (d :: more) = none := by
      cases hdl : getA k t.delivery_lists with
      | none => simp [PubSubTool.add_non_gd_messages_no_lock, hdl]
      | some dl => simp [PubSubTool.add_non_gd_messages_no_lock, hdl, hd]
    simp [PubSubTool.handle_new_messages, hlk', hadd]
  · intro hready hmsgs
    obtain ⟨t', cs, heq, _⟩ := handle_ready get_sql cid has_gd msgs hmsgs ks t hready
    rw [heq]
    rfl

/-- Witness for C8 (amended): the empty registry raises for the unknown key
`k1`; a registry holding `k1` raises for a payload with only `pub_msg_id`;
and the same registry completes a well-formed call. -/
theorem claim_C8_witness :
    (getA "k1" PubSubTool.init.sub_key_locks = none ∧
     PubSubTool.handle_new_messages (fun _ _ => []) PubSubTool.init 1 false ["k1"] [] =
       none) ∧
    ((getA "k1" (PubSubTool.add_sub_key PubSubTool.init "k1").sub_key_locks).isSome = true ∧
     NonGDMessage [("pub_msg_id", 1)] = none ∧
     PubSubTool.handle_new_messages (fun _ _ => [])
       (PubSubTool.add_sub_key PubSubTool.init "k1") 1 false ["k1"]
       [[("pub_msg_id", 1)]] = none) ∧
    (PubSubTool.handle_new_messages (fun _ _ => [])
      (PubSubTool.add_sub_key PubSubTool.init "k1") 1 true ["k1"]
      [mkTestDict 4 5 0 0]).isSome = true :=
  ⟨⟨by decide,
    (claim_C8 (fun _ _ => []) 1 false "k1" [] [] PubSubTool.init [] [] []).1 (by decide)⟩,
   ⟨by decide, by decide,
    (claim_C8 (fun _ _ => []) 1 false "k1" [] [] (PubSubTool.add_sub_key PubSubTool.init "k1")
      [("pub_msg_id", 1)] [] []).2.1 (by decide) (by decide)⟩,
   (claim_C8 (fun _ _ => []) 1 true "k1" [] ["k1"] (PubSubTool.add_sub_key PubSubTool.init "k1")
      [] [mkTestDict 4 5 0 0] []).2.2 (by decide) (by decide)⟩
